import Mathlib

/-!
Verification of the VendaBoost utility scripts.

Shallow embedding of `src/data/sessions/session_deduplicator.py` and
`src/extension/session-capture-extension/generate_icons.py`.

Modelling conventions:
* JSON scalar values are `JValue`; the session documents consulted by the
  deduplicator only use scalar fields, so container values are not modelled.
* A file on disk is a `FileInfo` (name, parsed content, modification time).
* `datetime` values are `PyDateTime`: timezone-aware or naive, with the
  value used by order comparisons; comparing an aware with a naive datetime
  raises TypeError, which line 138's sort turns into an abort of the whole
  deduplication loop through the outer handler of lines 162-163.
  `datetime.fromisoformat` is an environment parameter
  `fromiso : String → Option PyDateTime` (`none` = ValueError; the result is
  aware exactly when the parsed string carries a UTC offset).
* `Path.unlink` outcomes are an environment parameter
  `unlinkOk : String → Bool` (`false` = the unlink raises).
* The directory is `Option (List FileInfo)` in glob discovery order;
  `none` models a directory that does not exist.
-/

namespace VendaBoost

/-- JSON scalar value, as produced by `json.load` for the fields consulted. -/
inductive JValue where
  | jnull
  | jbool (b : Bool)
  | jnum (n : Int)
  | jstr (s : String)
deriving DecidableEq, Repr

/-- Python truthiness of a JSON scalar (`bool(v)`). -/
def JValue.truthy : JValue → Bool
  | .jnull => false
  | .jbool b => b
  | .jnum n => n != 0
  | .jstr s => s != ""

/-- Python `x or y` on a possibly-absent value (`none` = Python `None`):
returns `x` when `x` is truthy, otherwise `y`. -/
def pyOr : Option JValue → Option JValue → Option JValue
  | some v, b => if v.truthy then some v else b
  | none, b => b

/-- Python truthiness of a possibly-absent value. -/
def optTruthy : Option JValue → Bool
  | some v => v.truthy
  | none => false

/-- Result of `json.load` on a file's bytes. -/
inductive Content where
  | invalid
  | nonObject
  | obj (fields : List (String × JValue))
deriving DecidableEq, Repr

/-- A file in the sessions directory: its name, its parsed content and its
filesystem modification time (`st_mtime`). -/
structure FileInfo where
  name : String
  content : Content
  mtime : Int
deriving DecidableEq, Repr

/-- `data.get(k)`: field lookup in a parsed JSON object. -/
def jget (fields : List (String × JValue)) (k : String) : Option JValue :=
  match fields with
  | [] => none
  | (k', v) :: rest => if k' = k then some v else jget rest k

/-- Lines 66-71: `data.get('activeSessionId') or data.get('sessionId') or
data.get('id') or data.get('accountId')`. -/
def sidChain (data : List (String × JValue)) : Option JValue :=
  pyOr (jget data "activeSessionId")
    (pyOr (jget data "sessionId")
      (pyOr (jget data "id") (jget data "accountId")))

/-- Lines 74-78: `data.get('updatedAt') or data.get('timestamp') or
data.get('createdAt')`. -/
def tsChain (data : List (String × JValue)) : Option JValue :=
  pyOr (jget data "updatedAt")
    (pyOr (jget data "timestamp") (jget data "createdAt"))

/-- The truthy outcome of an `or` chain: its value when truthy, `none`
otherwise. The scanner only uses a chain's value after a truthiness check,
so this is the part of the chain the program can observe. -/
def truthyPart : Option JValue → Option JValue
  | some v => if v.truthy then some v else none
  | none => none

/-- Written from the spec's words, for comparison with the code's `or`
chains: first-match-wins where a match is a field that is present with a
truthy value (present falsy fields fall through). -/
def specFirstTruthyField (data : List (String × JValue)) :
    List String → Option JValue
  | [] => none
  | key :: keys =>
    match jget data key with
    | some v => if v.truthy then some v else specFirstTruthyField data keys
    | none => specFirstTruthyField data keys

/-- Written from the claim's words, for comparison with the code's `or`
chains: first-match-wins where a match is any present field, whose value is
then used as is. -/
def specFirstPresentField (data : List (String × JValue)) :
    List String → Option JValue
  | [] => none
  | key :: keys =>
    match jget data key with
    | some v => some v
    | none => specFirstPresentField data keys

/-- A Python `datetime`: timezone-aware or naive, together with the value
its order comparisons use (for aware datetimes the UTC instant, for naive
ones the wall-clock value). `datetime.fromisoformat` yields an aware value
exactly when the string carries an offset (line 92 turns a `Z` suffix into
`+00:00`, but offset-less strings parse to naive values), while
`datetime.fromtimestamp(st_mtime)` at line 95 is always naive. -/
structure PyDateTime where
  aware : Bool
  t : Int
deriving DecidableEq, Repr

/-- Python order comparison of two datetimes is defined only between two
aware or two naive values; comparing across the two kinds raises
TypeError. -/
def dtComparable (a b : PyDateTime) : Bool :=
  a.aware == b.aware

/-- Python `s.rstrip('Z')`. -/
def pyRstripZ (s : String) : String :=
  ⟨(s.data.reverse.dropWhile (· == 'Z')).reverse⟩

/-- Python `s[:n]`. -/
def pyTake (s : String) (n : Nat) : String :=
  ⟨s.data.take n⟩

/-- Python `s.split('.')` on the character list: the maximal dot-free
pieces, with empty pieces between, before and after adjacent dots. -/
def splitOnDot (l : List Char) : List (List Char) :=
  match l with
  | [] => [[]]
  | ch :: rest =>
    let r := splitOnDot rest
    if ch = '.' then [] :: r
    else
      match r with
      | [] => [[ch]]
      | h :: t => (ch :: h) :: t

/-- Python `s.replace('Z', '+00:00')` from line 92: every `Z` becomes
`+00:00`. -/
def replaceZ (l : List Char) : List Char :=
  match l with
  | [] => []
  | ch :: rest =>
    if ch = 'Z' then '+' :: '0' :: '0' :: ':' :: '0' :: '0' :: replaceZ rest
    else ch :: replaceZ rest

/-- Lines 87-90: when the timestamp string contains a dot, split once into
`base` and `frac`, normalise the fraction to `frac.rstrip('Z')[:6] + 'Z'`.
`none` is the ValueError raised by unpacking when the split yields more than
two parts. -/
def normalizeTs (s : String) : Option String :=
  if s.data.contains '.' then
    match splitOnDot s.data with
    | [base, frac] =>
      some (⟨base⟩ ++ "." ++ (pyTake (pyRstripZ ⟨frac⟩) 6 ++ "Z"))
    | _ => none
  else some s

/-- Lines 51-104, `SessionDeduplicator.get_session_info`: extract the session
id and the resolved timestamp of a file, `(none, none)` on any error
(JSON decode error, non-object document, falsy id, unparsable or non-string
timestamp value). A truthy non-string timestamp raises a TypeError inside the
`try` (the `'.' in timestamp_str` / `fromisoformat` calls) and lands in the
generic handler. -/
def get_session_info (fromiso : String → Option PyDateTime) (f : FileInfo) :
    Option JValue × Option PyDateTime :=
  match f.content with
  | .invalid => (none, none)
  | .nonObject => (none, none)
  | .obj data =>
    let sid := sidChain data
    let tsv := tsChain data
    if optTruthy sid = false then (none, none)
    else if optTruthy tsv then
      match tsv with
      | some (.jstr s) =>
        match normalizeTs s with
        | none => (none, none)
        | some s2 =>
          match fromiso ⟨replaceZ s2.data⟩ with
          | none => (none, none)
          | some t => (sid, some t)
      | _ => (none, none)
    else (sid, some ⟨false, f.mtime⟩)

/-- Line 30: the fixed exclusion set. -/
def excluded_files : List String :=
  ["current-session.json", "active-session-config.json"]

/-- `glob('*.json')` matches exactly the names ending in `.json`, stated on
the character list of the name. -/
def matchesJsonGlob (s : String) : Bool :=
  ".json".data.isSuffixOf s.data

/-- Lines 117-118: a file is picked up by `glob('*.json')` and not excluded. -/
def isSessionJson (f : FileInfo) : Bool :=
  matchesJsonGlob f.name && !(excluded_files.contains f.name)

/-- The `json_files` list of lines 117-118, in discovery order. -/
def jsonFilesOf (dir : List FileInfo) : List FileInfo :=
  dir.filter isSessionJson

/-- A grouped entry: the `(file_path, timestamp)` pairs stored in
`session_map`. -/
abbrev Entry := FileInfo × PyDateTime

/-- `session_map[sid].append(e)` on a `defaultdict(list)`: Python dicts keep
key insertion order, and appends go to the end of the key's list. -/
def addEntry (m : List (JValue × List Entry)) (k : JValue) (e : Entry) :
    List (JValue × List Entry) :=
  match m with
  | [] => [(k, [e])]
  | (k', es) :: rest =>
    if k' = k then (k', es ++ [e]) :: rest else (k', es) :: addEntry rest k e

/-- Lines 128-130: the group key and entry a file contributes, when
`session_id and timestamp` is truthy (a resolved `datetime` is always
truthy, so the timestamp side only requires presence). -/
def entryOf (fromiso : String → Option PyDateTime) (f : FileInfo) :
    Option (JValue × Entry) :=
  match get_session_info fromiso f with
  | (some sid, some ts) => if sid.truthy then some (sid, (f, ts)) else none
  | _ => none

/-- One iteration of the loop of lines 127-131 on the accumulated map. -/
def mapStep (fromiso : String → Option PyDateTime) (m : List (JValue × List Entry))
    (f : FileInfo) : List (JValue × List Entry) :=
  match entryOf fromiso f with
  | some (k, e) => addEntry m k e
  | none => m

/-- Lines 127-131: process each file and append `(file_path, timestamp)` to
its id's group. -/
def buildMap (fromiso : String → Option PyDateTime) (files : List FileInfo) :
    List (JValue × List Entry) :=
  files.foldl (mapStep fromiso) []

/-- The members that `session_map[k]` collects from `files`, in discovery
order: the entries of the files whose extracted id is `k`. -/
def groupEntries (fromiso : String → Option PyDateTime) (k : JValue)
    (files : List FileInfo) : List Entry :=
  files.filterMap (fun f =>
    match entryOf fromiso f with
    | some (k', e) => if k' = k then some e else none
    | none => none)

/-- The group lists stored for each key of the map (`[]` for an absent
key). -/
def findGroup (m : List (JValue × List Entry)) (k : JValue) : List Entry :=
  match m with
  | [] => []
  | (k', es) :: rest => if k' = k then es else findGroup rest k

/-- The first element of `c :: xs` attaining the maximal timestamp: what the
head of Python's stable descending sort is. -/
def firstMaxAux (c : Entry) : List Entry → Entry
  | [] => c
  | x :: xs => if c.2.t < x.2.t then firstMaxAux x xs else firstMaxAux c xs

/-- Stable insertion into a descending-by-timestamp list: the new element goes
after every element whose timestamp is greater than or equal to its own. -/
def insertDesc (e : Entry) : List Entry → List Entry
  | [] => [e]
  | x :: xs => if x.2.t < e.2.t then e :: x :: xs else x :: insertDesc e xs

/-- Line 138: `files.sort(key=lambda x: x[1], reverse=True)` — Python's sort
is stable, so equal timestamps keep discovery order. -/
def sortDesc (l : List Entry) : List Entry :=
  l.foldl (fun acc e => insertDesc e acc) []

/-- Whether every pair of timestamps in a group is order-comparable: all
aware or all naive. A correct comparison sort of a list holding both kinds
must at some point compare an aware with a naive datetime (their relative
order cannot be established otherwise), so line 138's sort raises TypeError
exactly on mixed lists; on uniform ones every comparison it makes is
defined. -/
def sortable (l : List Entry) : Bool :=
  match l with
  | [] => true
  | e :: es => es.all (fun x => dtComparable x.2 e.2)

/-- Line 138's `files.sort(key=lambda x: x[1], reverse=True)`: the stable
descending order on uniform groups, `none` for the TypeError raised on a
group mixing aware and naive timestamps. No file is touched either way —
the exception propagates to the outer handler before any unlink of this
group. -/
def sortDescOrRaise (l : List Entry) : Option (List Entry) :=
  if sortable l then some (sortDesc l) else none

/-- Lines 136-144: for one group, the names whose deletion is attempted when
its sort succeeds — everything after the head of the descending sort, when
the group has more than one member. -/
def groupDeletions (g : JValue × List Entry) : List String :=
  if g.2.length > 1 then ((sortDesc g.2).tail).map (fun e => e.1.name) else []

/-- All deletion attempts of a fully processed scan, in group then member
order. -/
def attemptedDeletions (m : List (JValue × List Entry)) : List String :=
  (m.map groupDeletions).flatten

/-- Running state of the deletion loop of lines 134-150: the names unlinked
so far, the unlink failures logged so far, and whether an exception (the
aware/naive sort TypeError) has escaped to the outer handler of lines
162-163, after which the loop body is never reached again. -/
structure DelState where
  deleted : List String
  deleteErrors : List String
  fatalError : Bool
deriving DecidableEq, Repr

/-- Lines 144-150: unlink each remaining member of a sorted group, logging
failures and continuing. -/
def unlinkFold (unlinkOk : String → Bool) (st : DelState) (l : List Entry) :
    DelState :=
  l.foldl (fun st e =>
    if unlinkOk e.1.name then { st with deleted := st.deleted ++ [e.1.name] }
    else { st with deleteErrors := st.deleteErrors ++ [e.1.name] }) st

/-- Lines 135-150, one group of the deletion loop: nothing once an exception
has aborted the loop; otherwise sort groups with more than one member
(raising on mixed aware/naive timestamps) and unlink everything after the
head. -/
def delStep (unlinkOk : String → Bool) (st : DelState)
    (g : JValue × List Entry) : DelState :=
  if st.fatalError then st
  else if g.2.length > 1 then
    match sortDescOrRaise g.2 with
    | none => { st with fatalError := true }
    | some sorted => unlinkFold unlinkOk st sorted.tail
  else st

/-- The whole deletion loop of lines 134-150 over the session map, in key
insertion order, with the outer exception handler of lines 162-163. -/
def runDeletions (unlinkOk : String → Bool)
    (m : List (JValue × List Entry)) : DelState :=
  m.foldl (delStep unlinkOk) ⟨[], [], false⟩

/-- Observable outcome of one `scan_and_deduplicate` call. -/
structure ScanResult where
  /-- The directory did not exist: an error was logged and the scan
  returned at line 111. -/
  dirMissing : Bool
  /-- Names of the files opened and parsed by `get_session_info`. -/
  opened : List String
  /-- Names logged as JSON decode errors (line 100). -/
  jsonErrors : List String
  /-- Names successfully unlinked (line 146). -/
  deleted : List String
  /-- Names whose unlink raised and was logged (line 150). -/
  deleteErrors : List String
  /-- An exception (the aware/naive sort TypeError of line 138) reached the
  outer handler of lines 162-163 and was logged; the deduplication loop
  aborted there, leaving its remaining groups untouched. -/
  fatalError : Bool
deriving DecidableEq, Repr

/-- Lines 106-163, `SessionDeduplicator.scan_and_deduplicate`. -/
def scan_and_deduplicate (fromiso : String → Option PyDateTime)
    (unlinkOk : String → Bool) (dir : Option (List FileInfo)) : ScanResult :=
  match dir with
  | none => ⟨true, [], [], [], [], false⟩
  | some files =>
    let json_files := jsonFilesOf files
    if json_files.isEmpty then ⟨false, [], [], [], [], false⟩
    else
      let m := buildMap fromiso json_files
      let st := runDeletions unlinkOk m
      ⟨false,
       json_files.map (fun f => f.name),
       (json_files.filter (fun f => f.content = Content.invalid)).map
         (fun f => f.name),
       st.deleted,
       st.deleteErrors,
       st.fatalError⟩

/-- The directory after a scan: the files whose unlink succeeded are gone. -/
def afterScan (files : List FileInfo) (r : ScanResult) : List FileInfo :=
  files.filter (fun f => !(r.deleted.contains f.name))

/-- What a signal handler does to the process. -/
inductive HandlerAction where
  | sysExit (code : Int)
  | setRunningFalse
deriving DecidableEq, Repr

/-- Lines 203-205, `signal_handler`: calls `sys.exit(0)`. -/
def signal_handler (signum : Int) (frame : Unit) : HandlerAction :=
  HandlerAction.sysExit 0

/-- Lines 185-192, one iteration of the periodic loop after the interval is
fixed: `for _ in range(n): if not self.running: break; time.sleep(1)` followed
by `if self.running: scan`. `running j` is the value of `self.running` at its
`j`-th read; the result is the number of one-second sleeps performed and
whether a new scan starts. -/
def waitLoop (running : Nat → Bool) : Nat → Nat → Nat × Bool
  | 0, i => (0, running i)
  | n + 1, i =>
    if running i then
      let r := waitLoop running n (i + 1)
      (r.1 + 1, r.2)
    else (0, running (i + 1))

/-! Embedding of `generate_icons.py`. The gradient and key-glyph drawing of
`create_icon` write pixels only and never change the image's dimensions, so
the image is tracked by its dimensions and whether the "S" label was drawn. -/

/-- The image built by `create_icon`: `Image.new('RGBA', (size, size), ...)`
followed by drawing calls. -/
structure Img where
  width : Nat
  height : Nat
  hasLabel : Bool
deriving DecidableEq, Repr

/-- Lines 9-93, `create_icon`: build a `size` by `size` image, draw the
gradient and the key glyph, and only when `size >= 48` try to draw the "S"
label — any exception while loading the font or drawing the text is swallowed
by the bare `except: pass`, modelled by the environment flag `fontOk`.
The image is saved to `filename` in every case. -/
def create_icon (fontOk : Bool) (size : Nat) (filename : String) :
    String × Img :=
  let img : Img := ⟨size, size, false⟩
  let img := if size ≥ 48 then
      (if fontOk then { img with hasLabel := true } else img)
    else img
  (filename, img)

/-- Lines 97-101: the fixed size/filename table of `main`. -/
def icon_table : List (Nat × String) :=
  [(16, "icon16.png"), (48, "icon48.png"), (128, "icon128.png")]

/-- Lines 95-104, `main`: the files written by one invocation, in order.
`fontOk s` tells whether the font/text drawing succeeded for size `s`. -/
def generate_icons_main (fontOk : Nat → Bool) : List (String × Img) :=
  icon_table.map (fun p => create_icon (fontOk p.1) p.1 p.2)

end VendaBoost

namespace VendaBoost

open List

/-! ### Basic facts about the stable descending sort -/

theorem insertDesc_ne_nil (e : Entry) (l : List Entry) : insertDesc e l ≠ [] := by
  cases l with
  | nil => simp [insertDesc]
  | cons x xs =>
    simp only [insertDesc]
    split <;> simp

theorem insertDesc_perm (e : Entry) (l : List Entry) : insertDesc e l ~ e :: l := by
  induction l with
  | nil => simp [insertDesc]
  | cons x xs ih =>
    simp only [insertDesc]
    split
    · exact List.Perm.refl _
    · exact (List.Perm.cons x ih).trans (List.Perm.swap e x xs)

theorem foldl_insertDesc_perm (l : List Entry) :
    ∀ acc : List Entry, l.foldl (fun acc e => insertDesc e acc) acc ~ l ++ acc := by
  induction l with
  | nil => intro acc; simp
  | cons x xs ih =>
    intro acc
    have h1 : xs.foldl (fun acc e => insertDesc e acc) (insertDesc x acc) ~
        xs ++ insertDesc x acc := ih (insertDesc x acc)
    have h2 : xs ++ insertDesc x acc ~ xs ++ (x :: acc) :=
      List.Perm.append_left xs (insertDesc_perm x acc)
    have h3 : xs ++ (x :: acc) ~ x :: (xs ++ acc) := List.perm_middle
    simpa using h1.trans (h2.trans h3)

theorem sortDesc_perm (l : List Entry) : sortDesc l ~ l := by
  simpa using foldl_insertDesc_perm l []

theorem head?_insertDesc (e c : Entry) (acc : List Entry) (h : acc.head? = some c) :
    (insertDesc e acc).head? = some (if c.2.t < e.2.t then e else c) := by
  cases acc with
  | nil => simp at h
  | cons a rest =>
    simp only [List.head?_cons, Option.some.injEq] at h
    subst h
    simp only [insertDesc]
    split <;> simp_all

theorem head?_foldl_insertDesc (xs : List Entry) :
    ∀ (acc : List Entry) (c : Entry), acc.head? = some c →
      (xs.foldl (fun a e => insertDesc e a) acc).head? = some (firstMaxAux c xs) := by
  induction xs with
  | nil => intro acc c h; simpa [firstMaxAux] using h
  | cons x xs ih =>
    intro acc c h
    have hstep : (insertDesc x acc).head? = some (if c.2.t < x.2.t then x else c) :=
      head?_insertDesc x c acc h
    have := ih (insertDesc x acc) (if c.2.t < x.2.t then x else c) hstep
    simp only [List.foldl_cons]
    rw [this]
    by_cases hc : c.2.t < x.2.t <;> simp [firstMaxAux, hc]

theorem head?_sortDesc (x : Entry) (xs : List Entry) :
    (sortDesc (x :: xs)).head? = some (firstMaxAux x xs) := by
  have : ((x :: xs).foldl (fun a e => insertDesc e a) []).head?
      = some (firstMaxAux x xs) := by
    simp only [List.foldl_cons]
    exact head?_foldl_insertDesc xs (insertDesc x []) x (by simp [insertDesc])
  simpa [sortDesc] using this

theorem firstMaxAux_ts_le (c : Entry) (xs : List Entry) :
    c.2.t ≤ (firstMaxAux c xs).2.t := by
  induction xs generalizing c with
  | nil => simp [firstMaxAux]
  | cons x xs ih =>
    simp only [firstMaxAux]
    split
    · exact le_trans (le_of_lt (by assumption)) (ih x)
    · exact ih c

theorem firstMaxAux_split (xs : List Entry) : ∀ c : Entry, ∃ l₁ l₂,
    c :: xs = l₁ ++ (firstMaxAux c xs) :: l₂ ∧
    (∀ y ∈ l₁, y.2.t < (firstMaxAux c xs).2.t) ∧
    (∀ y ∈ l₂, y.2.t ≤ (firstMaxAux c xs).2.t) := by
  induction xs with
  | nil =>
    intro c
    exact ⟨[], [], by simp [firstMaxAux], by simp, by simp⟩
  | cons x xs ih =>
    intro c
    by_cases h : c.2.t < x.2.t
    · have hfm : firstMaxAux c (x :: xs) = firstMaxAux x xs := by
        simp [firstMaxAux, h]
      obtain ⟨l₁, l₂, heq, h₁, h₂⟩ := ih x
      rw [hfm]
      refine ⟨c :: l₁, l₂, ?_, ?_, h₂⟩
      · simpa using congrArg (c :: ·) heq
      · intro y hy
        rcases List.mem_cons.mp hy with rfl | hy
        · exact lt_of_lt_of_le h (firstMaxAux_ts_le x xs)
        · exact h₁ y hy
    · have hfm : firstMaxAux c (x :: xs) = firstMaxAux c xs := by
        simp [firstMaxAux, h]
      obtain ⟨l₁, l₂, heq, h₁, h₂⟩ := ih c
      rw [hfm]
      cases l₁ with
      | nil =>
        simp only [List.nil_append, List.cons.injEq] at heq
        obtain ⟨hfmc, hxs⟩ := heq
        refine ⟨[], x :: xs, ?_, by simp, ?_⟩
        · rw [List.nil_append, ← hfmc]
        · intro y hy
          rw [← hfmc]
          rcases List.mem_cons.mp hy with rfl | hy
          · exact le_of_not_lt h
          · have := h₂ y (hxs ▸ hy)
            rw [← hfmc] at this
            exact this
      | cons a l₁' =>
        simp only [List.cons_append, List.cons.injEq] at heq
        obtain ⟨rfl, hxs⟩ := heq
        refine ⟨c :: x :: l₁', l₂, ?_, ?_, h₂⟩
        · nth_rewrite 1 [hxs]
          simp
        · intro y hy
          have hcfm : c.2.t < (firstMaxAux c xs).2.t := h₁ c (by simp)
          rcases List.mem_cons.mp hy with hyc | hy
          · rw [hyc]; exact hcfm
          rcases List.mem_cons.mp hy with hyx | hy
          · rw [hyx]; exact lt_of_le_of_lt (le_of_not_lt h) hcfm
          · exact h₁ y (by simp [hy])

end VendaBoost

namespace VendaBoost

open List

/-! ### Extraction entries and group membership -/

theorem entryOf_eq_some {fromiso : String → Option PyDateTime} {f : FileInfo}
    {k : JValue} {e : Entry} :
    entryOf fromiso f = some (k, e) ↔
      k.truthy = true ∧ e.1 = f ∧
        get_session_info fromiso f = (some k, some e.2) := by
  constructor
  · intro h
    simp only [entryOf] at h
    rcases hg : get_session_info fromiso f with ⟨sid, ts⟩
    rw [hg] at h
    rcases sid with _ | sid
    · simp at h
    rcases ts with _ | ts
    · simp at h
    by_cases ht : sid.truthy
    · simp only [ht, if_true, Option.some.injEq, Prod.mk.injEq] at h
      obtain ⟨rfl, rfl⟩ := h
      exact ⟨ht, rfl, by simp [hg]⟩
    · simp [ht] at h
  · rintro ⟨htr, he1, hgk⟩
    subst he1
    simp only [entryOf, hgk, htr, if_true, Prod.mk.eta]

theorem mem_groupEntries {fromiso : String → Option PyDateTime} {k : JValue}
    {files : List FileInfo} {e : Entry} :
    e ∈ groupEntries fromiso k files ↔
      ∃ f ∈ files, entryOf fromiso f = some (k, e) := by
  unfold groupEntries
  rw [List.mem_filterMap]
  constructor
  · rintro ⟨f, hf, hmatch⟩
    refine ⟨f, hf, ?_⟩
    rcases he : entryOf fromiso f with _ | ⟨k', e'⟩
    · rw [he] at hmatch; simp at hmatch
    · rw [he] at hmatch
      by_cases hk : k' = k
      · simp only [hk, if_true, Option.some.injEq] at hmatch
        rw [hk, hmatch]
      · simp [hk] at hmatch
  · rintro ⟨f, hf, he⟩
    exact ⟨f, hf, by simp [he]⟩

theorem groupEntries_sound {fromiso : String → Option PyDateTime} {k : JValue}
    {files : List FileInfo} {e : Entry} (h : e ∈ groupEntries fromiso k files) :
    e.1 ∈ files ∧ k.truthy = true ∧
      get_session_info fromiso e.1 = (some k, some e.2) := by
  obtain ⟨f, hf, he⟩ := mem_groupEntries.mp h
  obtain ⟨ht, he1, hg⟩ := entryOf_eq_some.mp he
  subst he1
  exact ⟨hf, ht, hg⟩

theorem groupEntries_cons (fromiso : String → Option PyDateTime) (k : JValue)
    (f : FileInfo) (files : List FileInfo) :
    groupEntries fromiso k (f :: files) =
      (match entryOf fromiso f with
        | some (k', e) => if k' = k then [e] else []
        | none => []) ++ groupEntries fromiso k files := by
  unfold groupEntries
  rw [List.filterMap_cons]
  rcases he : entryOf fromiso f with _ | ⟨k', e⟩
  · simp
  · by_cases hk : k' = k <;> simp [hk]

theorem groupEntries_filter (fromiso : String → Option PyDateTime) (k : JValue)
    (q : FileInfo → Bool) (files : List FileInfo) :
    groupEntries fromiso k (files.filter q) =
      (groupEntries fromiso k files).filter (fun e => q e.1) := by
  induction files with
  | nil => simp [groupEntries]
  | cons f fs ih =>
    by_cases hq : q f
    · rw [List.filter_cons_of_pos hq, groupEntries_cons, groupEntries_cons, ih]
      rcases he : entryOf fromiso f with _ | ⟨k', e⟩
      · simp
      · have he1 : e.1 = f := (entryOf_eq_some.mp he).2.1
        by_cases hk : k' = k <;> simp [hk, he1, hq]
    · rw [List.filter_cons_of_neg hq, groupEntries_cons, ih]
      rcases he : entryOf fromiso f with _ | ⟨k', e⟩
      · simp
      · have he1 : e.1 = f := (entryOf_eq_some.mp he).2.1
        by_cases hk : k' = k <;> simp [hk, he1, hq]

theorem groupEntries_fst_sublist (fromiso : String → Option PyDateTime) (k : JValue)
    (files : List FileInfo) :
    ((groupEntries fromiso k files).map (fun e => e.1)) <+ files := by
  induction files with
  | nil => simp [groupEntries]
  | cons f fs ih =>
    rw [groupEntries_cons]
    rcases he : entryOf fromiso f with _ | ⟨k', e⟩
    · simpa using ih.cons f
    · by_cases hk : k' = k
      · have he1 : e.1 = f := (entryOf_eq_some.mp he).2.1
        simpa [hk, he1] using ih.cons₂ f
      · simpa [hk] using ih.cons f

theorem groupEntries_names_sublist (fromiso : String → Option PyDateTime) (k : JValue)
    (files : List FileInfo) :
    ((groupEntries fromiso k files).map (fun e => e.1.name)) <+
      files.map (fun f => f.name) := by
  have := (groupEntries_fst_sublist fromiso k files).map (fun f => f.name)
  simpa [List.map_map, Function.comp] using this

/-! ### The session map -/

theorem findGroup_addEntry_self (m : List (JValue × List Entry)) (k : JValue)
    (e : Entry) : findGroup (addEntry m k e) k = findGroup m k ++ [e] := by
  induction m with
  | nil => simp [addEntry, findGroup]
  | cons g rest ih =>
    rcases g with ⟨k', es⟩
    by_cases hk : k' = k <;> simp [addEntry, findGroup, hk, ih]

theorem findGroup_addEntry_ne (m : List (JValue × List Entry)) (k : JValue)
    (e : Entry) (k' : JValue) (h : k' ≠ k) :
    findGroup (addEntry m k e) k' = findGroup m k' := by
  have hkk : ¬ (k = k') := fun h' => h (Eq.symm h')
  induction m with
  | nil => simp [addEntry, findGroup, hkk]
  | cons g rest ih =>
    rcases g with ⟨k'', es⟩
    by_cases hk : k'' = k
    · subst hk
      simp [addEntry, findGroup, hkk]
    · by_cases hk2 : k'' = k' <;> simp [addEntry, findGroup, hk, hk2, ih, h]

theorem mem_keys_addEntry (m : List (JValue × List Entry)) (k : JValue)
    (e : Entry) (k' : JValue) :
    k' ∈ (addEntry m k e).map Prod.fst ↔ k' ∈ m.map Prod.fst ∨ k' = k := by
  induction m with
  | nil =>
    simp only [addEntry, List.map_cons, List.map_nil, List.mem_cons,
      List.not_mem_nil, false_or]
    tauto
  | cons g rest ih =>
    rcases g with ⟨k'', es⟩
    by_cases hk : k'' = k <;> simp [addEntry, hk, ih] <;> tauto

theorem nodup_keys_addEntry (m : List (JValue × List Entry)) (k : JValue)
    (e : Entry) (h : (m.map Prod.fst).Nodup) :
    ((addEntry m k e).map Prod.fst).Nodup := by
  induction m with
  | nil => simp [addEntry]
  | cons g rest ih =>
    rcases g with ⟨k'', es⟩
    simp only [List.map_cons, List.nodup_cons] at h
    obtain ⟨hk'', hnd⟩ := h
    by_cases hk : k'' = k
    · simpa [addEntry, hk] using ⟨by simpa [hk] using hk'', hnd⟩
    · simp only [addEntry, hk, if_false, List.map_cons, List.nodup_cons]
      refine ⟨?_, ih hnd⟩
      rw [mem_keys_addEntry]
      rintro (hmem | rfl)
      · exact hk'' hmem
      · exact hk rfl

theorem groups_ne_nil_addEntry (m : List (JValue × List Entry)) (k : JValue)
    (e : Entry) (h : ∀ g ∈ m, g.2 ≠ []) : ∀ g ∈ addEntry m k e, g.2 ≠ [] := by
  induction m with
  | nil => simp [addEntry]
  | cons g0 rest ih =>
    rcases g0 with ⟨k'', es⟩
    intro g hg
    by_cases hk : k'' = k
    · rw [addEntry] at hg
      simp only [hk, if_true] at hg
      rcases List.mem_cons.mp hg with rfl | hg
      · simp
      · exact h g (List.mem_cons_of_mem _ hg)
    · rw [addEntry] at hg
      simp only [hk, if_false] at hg
      rcases List.mem_cons.mp hg with rfl | hg
      · exact h _ (List.mem_cons_self _ _)
      · exact ih (fun g' hg' => h g' (List.mem_cons_of_mem _ hg')) g hg

end VendaBoost

namespace VendaBoost

open List

theorem mem_iff_findGroup {m : List (JValue × List Entry)}
    (hnd : (m.map Prod.fst).Nodup) {k : JValue} {fs : List Entry} :
    (k, fs) ∈ m ↔ (k ∈ m.map Prod.fst ∧ fs = findGroup m k) := by
  induction m with
  | nil => simp [findGroup]
  | cons g rest ih =>
    rcases g with ⟨k', es⟩
    simp only [List.map_cons, List.nodup_cons] at hnd
    obtain ⟨hk', hnd⟩ := hnd
    by_cases hk : k' = k
    · subst hk
      simp only [findGroup, if_pos rfl, List.mem_cons, Prod.mk.injEq, true_and,
        List.map_cons, true_or, true_and]
      constructor
      · rintro (rfl | hmem)
        · rfl
        · exact absurd (by simpa using List.mem_map_of_mem Prod.fst hmem) hk'
      · intro h; exact Or.inl h
    · simp only [findGroup, if_neg hk, List.mem_cons, Prod.mk.injEq,
        List.map_cons]
      rw [ih hnd]
      constructor
      · rintro (⟨h1, h2⟩ | h)
        · exact absurd h1.symm hk
        · exact ⟨Or.inr h.1, h.2⟩
      · rintro ⟨(h1 | h1), h2⟩
        · exact absurd h1.symm hk
        · exact Or.inr ⟨h1, h2⟩

theorem buildMap_go (fromiso : String → Option PyDateTime) :
    ∀ (files : List FileInfo) (m : List (JValue × List Entry)),
      (m.map Prod.fst).Nodup → (∀ g ∈ m, g.2 ≠ []) →
      ((files.foldl (mapStep fromiso) m).map Prod.fst).Nodup
      ∧ (∀ g ∈ files.foldl (mapStep fromiso) m, g.2 ≠ [])
      ∧ (∀ k, findGroup (files.foldl (mapStep fromiso) m) k =
          findGroup m k ++ groupEntries fromiso k files)
      ∧ (∀ k, k ∈ (files.foldl (mapStep fromiso) m).map Prod.fst ↔
          (k ∈ m.map Prod.fst ∨ groupEntries fromiso k files ≠ [])) := by
  intro files
  induction files with
  | nil =>
    intro m hnd hne
    refine ⟨hnd, hne, ?_, ?_⟩
    · intro k; simp [groupEntries]
    · intro k; simp [groupEntries]
  | cons f fs ih =>
    intro m hnd hne
    simp only [List.foldl_cons]
    rcases he : entryOf fromiso f with _ | ⟨k0, e0⟩
    · have hstep : mapStep fromiso m f = m := by simp [mapStep, he]
      rw [hstep]
      obtain ⟨a, b, c, d⟩ := ih m hnd hne
      refine ⟨a, b, ?_, ?_⟩
      · intro k
        rw [c k, groupEntries_cons, he]
        simp
      · intro k
        rw [d k, groupEntries_cons, he]
        simp
    · have hstep : mapStep fromiso m f = addEntry m k0 e0 := by
        simp [mapStep, he]
      rw [hstep]
      obtain ⟨a, b, c, d⟩ := ih (addEntry m k0 e0)
        (nodup_keys_addEntry m k0 e0 hnd) (groups_ne_nil_addEntry m k0 e0 hne)
      refine ⟨a, b, ?_, ?_⟩
      · intro k
        rw [c k, groupEntries_cons, he]
        by_cases hk : k0 = k
        · subst hk
          rw [findGroup_addEntry_self]
          simp
        · rw [findGroup_addEntry_ne m k0 e0 k (fun h' => hk (Eq.symm h'))]
          simp [hk]
      · intro k
        rw [d k, mem_keys_addEntry, groupEntries_cons, he]
        by_cases hk : k0 = k
        · subst hk
          simp
        · have hk2 : ¬ (k = k0) := fun h' => hk (Eq.symm h')
          simp only [hk, hk2, if_false, or_false, List.nil_append]

theorem buildMap_nodup_keys (fromiso : String → Option PyDateTime)
    (files : List FileInfo) : ((buildMap fromiso files).map Prod.fst).Nodup :=
  (buildMap_go fromiso files [] (by simp) (by simp)).1

theorem buildMap_findGroup (fromiso : String → Option PyDateTime)
    (files : List FileInfo) (k : JValue) :
    findGroup (buildMap fromiso files) k = groupEntries fromiso k files := by
  have := (buildMap_go fromiso files [] (by simp) (by simp)).2.2.1 k
  simpa [buildMap, findGroup] using this

theorem buildMap_keys_iff (fromiso : String → Option PyDateTime)
    (files : List FileInfo) (k : JValue) :
    k ∈ (buildMap fromiso files).map Prod.fst ↔
      groupEntries fromiso k files ≠ [] := by
  have := (buildMap_go fromiso files [] (by simp) (by simp)).2.2.2 k
  simpa [buildMap] using this

theorem mem_buildMap {fromiso : String → Option PyDateTime} {files : List FileInfo}
    {k : JValue} {fs : List Entry} (h : (k, fs) ∈ buildMap fromiso files) :
    fs = groupEntries fromiso k files ∧ fs ≠ [] := by
  have hnd := buildMap_nodup_keys fromiso files
  obtain ⟨hkm, hfs⟩ := (mem_iff_findGroup hnd).mp h
  rw [buildMap_findGroup] at hfs
  refine ⟨hfs, ?_⟩
  rw [hfs]
  exact (buildMap_keys_iff fromiso files k).mp hkm

theorem buildMap_mem_of_ne {fromiso : String → Option PyDateTime}
    {files : List FileInfo} {k : JValue}
    (h : groupEntries fromiso k files ≠ []) :
    (k, groupEntries fromiso k files) ∈ buildMap fromiso files := by
  have hnd := buildMap_nodup_keys fromiso files
  rw [mem_iff_findGroup hnd]
  exact ⟨(buildMap_keys_iff fromiso files k).mpr h,
    (buildMap_findGroup fromiso files k).symm⟩

/-! ### The deletion lists -/

theorem mem_attemptedDeletions {m : List (JValue × List Entry)} {n : String} :
    n ∈ attemptedDeletions m ↔ ∃ g ∈ m, n ∈ groupDeletions g := by
  simp only [attemptedDeletions, List.mem_flatten, List.mem_map]
  constructor
  · rintro ⟨l, ⟨g, hg, rfl⟩, hn⟩
    exact ⟨g, hg, hn⟩
  · rintro ⟨g, hg, hn⟩
    exact ⟨groupDeletions g, ⟨g, hg, rfl⟩, hn⟩

theorem mem_groupDeletions {g : JValue × List Entry} {n : String} :
    n ∈ groupDeletions g ↔
      g.2.length > 1 ∧ ∃ e ∈ (sortDesc g.2).tail, e.1.name = n := by
  by_cases hlen : g.2.length > 1
  · have hg : groupDeletions g = ((sortDesc g.2).tail).map (fun e => e.1.name) := by
      unfold groupDeletions
      rw [if_pos hlen]
    rw [hg, List.mem_map]
    constructor
    · rintro ⟨e, he, rfl⟩
      exact ⟨hlen, e, he, rfl⟩
    · rintro ⟨h1, e, he, rfl⟩
      exact ⟨e, he, rfl⟩
  · have hg : groupDeletions g = [] := by
      unfold groupDeletions
      rw [if_neg hlen]
    rw [hg]
    simp [hlen]

theorem contains_iff_mem_names {l : List String} {n : String} :
    l.contains n = true ↔ n ∈ l := List.elem_iff

end VendaBoost

namespace VendaBoost

open List

/-! ### Unfolding the scan -/

theorem scan_none (fromiso : String → Option PyDateTime) (u : String → Bool) :
    scan_and_deduplicate fromiso u none = ⟨true, [], [], [], [], false⟩ := rfl

theorem scan_some (fromiso : String → Option PyDateTime) (u : String → Bool)
    (files : List FileInfo) (h : jsonFilesOf files ≠ []) :
    scan_and_deduplicate fromiso u (some files) =
      ⟨false,
       (jsonFilesOf files).map (fun f => f.name),
       ((jsonFilesOf files).filter
         (fun f => f.content = Content.invalid)).map (fun f => f.name),
       (runDeletions u (buildMap fromiso (jsonFilesOf files))).deleted,
       (runDeletions u (buildMap fromiso (jsonFilesOf files))).deleteErrors,
       (runDeletions u (buildMap fromiso (jsonFilesOf files))).fatalError⟩ := by
  unfold scan_and_deduplicate
  have : (jsonFilesOf files).isEmpty = false := by
    rw [Bool.eq_false_iff]
    rw [ne_eq, List.isEmpty_iff]
    exact h
  simp [this]

theorem scan_some_empty (fromiso : String → Option PyDateTime) (u : String → Bool)
    (files : List FileInfo) (h : jsonFilesOf files = []) :
    scan_and_deduplicate fromiso u (some files) =
      ⟨false, [], [], [], [], false⟩ := by
  unfold scan_and_deduplicate
  have : (jsonFilesOf files).isEmpty = true := by
    rw [List.isEmpty_iff]
    exact h
  simp [this]

/-! ### Name uniqueness -/

theorem name_inj {files : List FileInfo}
    (hnames : (files.map (fun f => f.name)).Nodup) {a b : FileInfo}
    (ha : a ∈ files) (hb : b ∈ files) (h : a.name = b.name) : a = b :=
  List.inj_on_of_nodup_map hnames ha hb h

theorem jsonFiles_names_nodup {files : List FileInfo}
    (h : (files.map (fun f => f.name)).Nodup) :
    ((jsonFilesOf files).map (fun f => f.name)).Nodup :=
  (List.Sublist.map _ (List.filter_sublist files)).nodup h

theorem filter_eq_single {α : Type} [DecidableEq α] :
    ∀ (l : List α) (p : α → Bool) (a : α), a ∈ l → p a = true →
      (∀ b ∈ l, b ≠ a → p b = false) → l.count a = 1 → l.filter p = [a] := by
  intro l
  induction l with
  | nil => intro p a ha _ _ _; simp at ha
  | cons x xs ih =>
    intro p a ha hpa hothers hcount
    by_cases hxa : x = a
    · subst hxa
      rw [List.count_cons_self] at hcount
      have hnot : x ∉ xs := by
        intro hmem
        have := List.count_pos_iff.mpr hmem
        omega
      rw [List.filter_cons_of_pos hpa]
      have hnil : xs.filter p = [] := by
        rw [List.filter_eq_nil_iff]
        intro b hb
        have hbx : b ≠ x := fun hbx => hnot (hbx ▸ hb)
        simp [hothers b (List.mem_cons_of_mem _ hb) hbx]
      rw [hnil]
    · have hpx : p x = false := hothers x (List.mem_cons_self _ _) hxa
      rw [List.filter_cons_of_neg (by simp [hpx])]
      have hax : a ≠ x := fun hax => hxa (Eq.symm hax)
      rw [List.count_cons_of_ne hax] at hcount
      have hmem : a ∈ xs := by
        rcases List.mem_cons.mp ha with rfl | hmem
        · exact absurd rfl hxa
        · exact hmem
      exact ih p a hmem hpa
        (fun b hb hba => hothers b (List.mem_cons_of_mem _ hb) hba) hcount

end VendaBoost

namespace VendaBoost

open List

theorem delStep_of_fatal (u : String → Bool) (st : DelState)
    (g : JValue × List Entry) (h : st.fatalError = true) :
    delStep u st g = st := by
  unfold delStep
  rw [if_pos h]

theorem unlinkFold_eq (u : String → Bool) (l : List Entry) :
    ∀ st : DelState, unlinkFold u st l =
      ⟨st.deleted ++ (l.map (fun e => e.1.name)).filter (fun n => u n),
       st.deleteErrors ++ (l.map (fun e => e.1.name)).filter (fun n => !u n),
       st.fatalError⟩ := by
  induction l with
  | nil =>
    intro st
    obtain ⟨d, er, fe⟩ := st
    simp [unlinkFold]
  | cons e l ih =>
    intro st
    obtain ⟨d, er, fe⟩ := st
    by_cases hu : u e.1.name = true
    · have hstep : unlinkFold u ⟨d, er, fe⟩ (e :: l) =
          unlinkFold u ⟨d ++ [e.1.name], er, fe⟩ l := by
        unfold unlinkFold
        rw [List.foldl_cons]
        simp [hu]
      rw [hstep, ih]
      simp [hu, List.filter_cons]
    · have hu' : u e.1.name = false := by simpa using hu
      have hstep : unlinkFold u ⟨d, er, fe⟩ (e :: l) =
          unlinkFold u ⟨d, er ++ [e.1.name], fe⟩ l := by
        unfold unlinkFold
        rw [List.foldl_cons]
        simp [hu']
      rw [hstep, ih]
      simp [hu', List.filter_cons]

theorem delStep_ok (u : String → Bool) (st : DelState)
    (g : JValue × List Entry) (hf : st.fatalError = false)
    (hs : g.2.length > 1 → sortable g.2 = true) :
    delStep u st g =
      ⟨st.deleted ++ (groupDeletions g).filter (fun n => u n),
       st.deleteErrors ++ (groupDeletions g).filter (fun n => !u n),
       false⟩ := by
  obtain ⟨d, er, fe⟩ := st
  simp only at hf
  subst hf
  unfold delStep
  simp only [Bool.false_eq_true, if_false]
  by_cases hlen : g.2.length > 1
  · have hsd : sortDescOrRaise g.2 = some (sortDesc g.2) := by
      unfold sortDescOrRaise
      rw [if_pos (hs hlen)]
    rw [if_pos hlen]
    simp only [hsd]
    rw [unlinkFold_eq]
    unfold groupDeletions
    rw [if_pos hlen]
  · rw [if_neg hlen]
    unfold groupDeletions
    rw [if_neg hlen]
    simp

theorem foldl_delStep_ok (u : String → Bool) :
    ∀ (gs : List (JValue × List Entry)) (st : DelState),
      st.fatalError = false →
      (∀ g ∈ gs, g.2.length > 1 → sortable g.2 = true) →
      gs.foldl (delStep u) st =
        ⟨st.deleted ++ (attemptedDeletions gs).filter (fun n => u n),
         st.deleteErrors ++ (attemptedDeletions gs).filter (fun n => !u n),
         false⟩ := by
  intro gs
  induction gs with
  | nil =>
    intro st hf hall
    obtain ⟨d, er, fe⟩ := st
    simp only at hf
    subst hf
    simp [attemptedDeletions]
  | cons g gs ih =>
    intro st hf hall
    rw [List.foldl_cons,
      delStep_ok u st g hf (hall g (List.mem_cons_self _ _)),
      ih _ rfl (fun g' hg' => hall g' (List.mem_cons_of_mem _ hg'))]
    simp [attemptedDeletions, List.filter_append, List.append_assoc]

theorem runDeletions_ok (u : String → Bool) (m : List (JValue × List Entry))
    (hall : ∀ g ∈ m, g.2.length > 1 → sortable g.2 = true) :
    runDeletions u m =
      ⟨(attemptedDeletions m).filter (fun n => u n),
       (attemptedDeletions m).filter (fun n => !u n), false⟩ := by
  have h := foldl_delStep_ok u m ⟨[], [], false⟩ rfl hall
  simpa [runDeletions] using h

theorem foldl_delStep_fatal_false (u : String → Bool) :
    ∀ (gs : List (JValue × List Entry)) (st : DelState),
      (gs.foldl (delStep u) st).fatalError = false →
      st.fatalError = false ∧
        ∀ g ∈ gs, g.2.length > 1 → sortable g.2 = true := by
  intro gs
  induction gs with
  | nil => intro st h; exact ⟨h, by simp⟩
  | cons g gs ih =>
    intro st h
    rw [List.foldl_cons] at h
    obtain ⟨hstep, hrest⟩ := ih (delStep u st g) h
    by_cases hf : st.fatalError = true
    · rw [delStep_of_fatal u st g hf, hf] at hstep
      cases hstep
    · have hf' : st.fatalError = false := by simpa using hf
      refine ⟨hf', ?_⟩
      intro g' hg'
      rcases List.mem_cons.mp hg' with rfl | hg'
      · intro hlen
        by_cases hs : sortable g'.2 = true
        · exact hs
        · exfalso
          have hset : (delStep u st g').fatalError = true := by
            have hsd : sortDescOrRaise g'.2 = none := by
              unfold sortDescOrRaise
              rw [if_neg hs]
            unfold delStep
            simp only [hf', Bool.false_eq_true, if_false]
            rw [if_pos hlen, hsd]
          rw [hset] at hstep
          cases hstep
      · exact hrest g' hg'

theorem runDeletions_fatal_false (u : String → Bool)
    (m : List (JValue × List Entry))
    (h : (runDeletions u m).fatalError = false) :
    ∀ g ∈ m, g.2.length > 1 → sortable g.2 = true :=
  (foldl_delStep_fatal_false u m ⟨[], [], false⟩ h).2

theorem delStep_deleted_sub (u : String → Bool) (st : DelState)
    (g : JValue × List Entry) : ∀ n, n ∈ (delStep u st g).deleted →
      n ∈ st.deleted ∨ n ∈ groupDeletions g := by
  intro n hn
  unfold delStep at hn
  by_cases hf : st.fatalError = true
  · rw [if_pos hf] at hn
    exact Or.inl hn
  · rw [if_neg hf] at hn
    by_cases hlen : g.2.length > 1
    · rw [if_pos hlen] at hn
      by_cases hs : sortable g.2 = true
      · have hsd : sortDescOrRaise g.2 = some (sortDesc g.2) := by
          unfold sortDescOrRaise
          rw [if_pos hs]
        rw [hsd] at hn
        simp only at hn
        rw [unlinkFold_eq] at hn
        rcases List.mem_append.mp hn with hn | hn
        · exact Or.inl hn
        · right
          unfold groupDeletions
          rw [if_pos hlen]
          exact List.mem_of_mem_filter hn
      · have hsd : sortDescOrRaise g.2 = none := by
          unfold sortDescOrRaise
          rw [if_neg hs]
        rw [hsd] at hn
        exact Or.inl hn
    · rw [if_neg hlen] at hn
      exact Or.inl hn

theorem delStep_errors_sub (u : String → Bool) (st : DelState)
    (g : JValue × List Entry) : ∀ n, n ∈ (delStep u st g).deleteErrors →
      n ∈ st.deleteErrors ∨ n ∈ groupDeletions g := by
  intro n hn
  unfold delStep at hn
  by_cases hf : st.fatalError = true
  · rw [if_pos hf] at hn
    exact Or.inl hn
  · rw [if_neg hf] at hn
    by_cases hlen : g.2.length > 1
    · rw [if_pos hlen] at hn
      by_cases hs : sortable g.2 = true
      · have hsd : sortDescOrRaise g.2 = some (sortDesc g.2) := by
          unfold sortDescOrRaise
          rw [if_pos hs]
        rw [hsd] at hn
        simp only at hn
        rw [unlinkFold_eq] at hn
        rcases List.mem_append.mp hn with hn | hn
        · exact Or.inl hn
        · right
          unfold groupDeletions
          rw [if_pos hlen]
          exact List.mem_of_mem_filter hn
      · have hsd : sortDescOrRaise g.2 = none := by
          unfold sortDescOrRaise
          rw [if_neg hs]
        rw [hsd] at hn
        exact Or.inl hn
    · rw [if_neg hlen] at hn
      exact Or.inl hn

theorem foldl_delStep_deleted_sub (u : String → Bool) :
    ∀ (gs : List (JValue × List Entry)) (st : DelState) (n : String),
      n ∈ (gs.foldl (delStep u) st).deleted →
      n ∈ st.deleted ∨ ∃ g ∈ gs, n ∈ groupDeletions g := by
  intro gs
  induction gs with
  | nil => intro st n hn; exact Or.inl hn
  | cons g gs ih =>
    intro st n hn
    rw [List.foldl_cons] at hn
    rcases ih (delStep u st g) n hn with hn' | ⟨g', hg', hn'⟩
    · rcases delStep_deleted_sub u st g n hn' with hn'' | hn''
      · exact Or.inl hn''
      · exact Or.inr ⟨g, List.mem_cons_self _ _, hn''⟩
    · exact Or.inr ⟨g', List.mem_cons_of_mem _ hg', hn'⟩

theorem foldl_delStep_errors_sub (u : String → Bool) :
    ∀ (gs : List (JValue × List Entry)) (st : DelState) (n : String),
      n ∈ (gs.foldl (delStep u) st).deleteErrors →
      n ∈ st.deleteErrors ∨ ∃ g ∈ gs, n ∈ groupDeletions g := by
  intro gs
  induction gs with
  | nil => intro st n hn; exact Or.inl hn
  | cons g gs ih =>
    intro st n hn
    rw [List.foldl_cons] at hn
    rcases ih (delStep u st g) n hn with hn' | ⟨g', hg', hn'⟩
    · rcases delStep_errors_sub u st g n hn' with hn'' | hn''
      · exact Or.inl hn''
      · exact Or.inr ⟨g, List.mem_cons_self _ _, hn''⟩
    · exact Or.inr ⟨g', List.mem_cons_of_mem _ hg', hn'⟩

theorem runDeletions_deleted_sub (u : String → Bool)
    (m : List (JValue × List Entry)) (n : String)
    (hn : n ∈ (runDeletions u m).deleted) :
    ∃ g ∈ m, n ∈ groupDeletions g := by
  rcases foldl_delStep_deleted_sub u m ⟨[], [], false⟩ n hn with h | h
  · cases h
  · exact h

theorem runDeletions_errors_sub (u : String → Bool)
    (m : List (JValue × List Entry)) (n : String)
    (hn : n ∈ (runDeletions u m).deleteErrors) :
    ∃ g ∈ m, n ∈ groupDeletions g := by
  rcases foldl_delStep_errors_sub u m ⟨[], [], false⟩ n hn with h | h
  · cases h
  · exact h

/-- Core survivor analysis: with pairwise-distinct file names and every
attempted unlink succeeding, each nonempty identifier group is left with
exactly one undeleted member — its first entry of maximal timestamp
(everything discovered before it is strictly older, everything after it is
no newer). -/
theorem survivors_core (fromiso : String → Option PyDateTime) (u : String → Bool)
    (files : List FileInfo) (hnames : (files.map (fun f => f.name)).Nodup)
    (hok : (scan_and_deduplicate fromiso u (some files)).deleteErrors = [])
    (hfatal : (scan_and_deduplicate fromiso u (some files)).fatalError = false)
    (k : JValue)
    (hne : groupEntries fromiso k (jsonFilesOf files) ≠ []) :
    ∃ e l₁ l₂,
      (groupEntries fromiso k (jsonFilesOf files)).filter
        (fun y =>
          !((scan_and_deduplicate fromiso u (some files)).deleted.contains
            y.1.name)) = [e] ∧
      groupEntries fromiso k (jsonFilesOf files) = l₁ ++ e :: l₂ ∧
      (∀ y ∈ l₁, y.2.t < e.2.t) ∧ (∀ y ∈ l₂, y.2.t ≤ e.2.t) := by
  have hJFne : jsonFilesOf files ≠ [] := by
    intro h0
    rw [h0] at hne
    simp [groupEntries] at hne
  have hscan := scan_some fromiso u files hJFne
  have hfat2 : (runDeletions u
      (buildMap fromiso (jsonFilesOf files))).fatalError = false := by
    rw [hscan] at hfatal
    exact hfatal
  have hallsort := runDeletions_fatal_false u _ hfat2
  have hrun := runDeletions_ok u (buildMap fromiso (jsonFilesOf files)) hallsort
  have hdelErr : (scan_and_deduplicate fromiso u (some files)).deleteErrors =
      (attemptedDeletions (buildMap fromiso (jsonFilesOf files))).filter
        (fun n => !u n) := by rw [hscan, hrun]
  have hdel : (scan_and_deduplicate fromiso u (some files)).deleted =
      (attemptedDeletions (buildMap fromiso (jsonFilesOf files))).filter
        (fun n => u n) := by rw [hscan, hrun]
  have hallok : ∀ n ∈ attemptedDeletions (buildMap fromiso (jsonFilesOf files)),
      u n = true := by
    rw [hdelErr] at hok
    intro n hn
    have := List.filter_eq_nil_iff.mp hok n hn
    simpa using this
  have hdeleq : (scan_and_deduplicate fromiso u (some files)).deleted =
      attemptedDeletions (buildMap fromiso (jsonFilesOf files)) := by
    rw [hdel]
    exact List.filter_eq_self.mpr hallok
  have hmemdel : ∀ n, n ∈ (scan_and_deduplicate fromiso u (some files)).deleted
      ↔ ∃ g ∈ buildMap fromiso (jsonFilesOf files), n ∈ groupDeletions g := by
    intro n
    rw [hdeleq]
    exact mem_attemptedDeletions
  have hJFn : ((jsonFilesOf files).map (fun f => f.name)).Nodup :=
    jsonFiles_names_nodup hnames
  have hGn : ((groupEntries fromiso k (jsonFilesOf files)).map
      (fun e => e.1.name)).Nodup :=
    (groupEntries_names_sublist fromiso k (jsonFilesOf files)).nodup hJFn
  obtain ⟨x, xs, hGxs⟩ : ∃ x xs,
      groupEntries fromiso k (jsonFilesOf files) = x :: xs := by
    cases hGc : groupEntries fromiso k (jsonFilesOf files) with
    | nil => exact absurd hGc hne
    | cons a l => exact ⟨a, l, rfl⟩
  obtain ⟨t, hsort⟩ : ∃ t,
      sortDesc (groupEntries fromiso k (jsonFilesOf files)) =
        firstMaxAux x xs :: t := by
    have hh : (sortDesc (groupEntries fromiso k (jsonFilesOf files))).head? =
        some (firstMaxAux x xs) := by
      rw [hGxs]; exact head?_sortDesc x xs
    cases hs : sortDesc (groupEntries fromiso k (jsonFilesOf files)) with
    | nil => rw [hs] at hh; simp at hh
    | cons a t =>
      rw [hs] at hh
      simp only [List.head?_cons, Option.some.injEq] at hh
      exact ⟨t, by rw [hh]⟩
  have hperm : (firstMaxAux x xs :: t) ~
      groupEntries fromiso k (jsonFilesOf files) := by
    rw [← hsort]; exact sortDesc_perm _
  have he0G : firstMaxAux x xs ∈ groupEntries fromiso k (jsonFilesOf files) :=
    hperm.mem_iff.mp (List.mem_cons_self _ _)
  have hsoundG : ∀ y ∈ groupEntries fromiso k (jsonFilesOf files),
      y.1 ∈ jsonFilesOf files ∧
        get_session_info fromiso y.1 = (some k, some y.2) := by
    intro y hy
    have h := groupEntries_sound hy
    exact ⟨h.1, h.2.2⟩
  have hA : (firstMaxAux x xs).1.name ∉
      (scan_and_deduplicate fromiso u (some files)).deleted := by
    intro hmem
    obtain ⟨g, hgm, hgd⟩ := (hmemdel _).mp hmem
    rcases g with ⟨k', fs'⟩
    obtain ⟨hfs', _⟩ := mem_buildMap hgm
    rw [mem_groupDeletions] at hgd
    obtain ⟨hlen', y, hyt, hyname⟩ := hgd
    have hy' : y ∈ fs' := (sortDesc_perm fs').mem_iff.mp (List.mem_of_mem_tail hyt)
    rw [hfs'] at hy'
    have hysound := groupEntries_sound hy'
    have he0sound := hsoundG _ he0G
    have hfile : y.1 = (firstMaxAux x xs).1 :=
      name_inj hJFn hysound.1 he0sound.1 hyname
    have h1 := hysound.2.2
    rw [hfile] at h1
    have h2 := he0sound.2
    rw [h1] at h2
    injection h2 with h2a h2b
    injection h2a with h2a
    injection h2b with h2b
    subst h2a
    rw [hfs'] at hyt
    rw [hsort] at hyt
    simp only [List.tail_cons] at hyt
    have hndt : ((firstMaxAux x xs :: t).map (fun e => e.1.name)).Nodup :=
      ((hperm.map (fun e => e.1.name)).nodup_iff).mpr hGn
    simp only [List.map_cons, List.nodup_cons] at hndt
    exact hndt.1 (hyname ▸ List.mem_map_of_mem (fun e => e.1.name) hyt)
  have hB : ∀ y ∈ t, y.1.name ∈
      (scan_and_deduplicate fromiso u (some files)).deleted := by
    intro y hyt
    have hlen : (groupEntries fromiso k (jsonFilesOf files)).length > 1 := by
      have hlt : 0 < t.length := List.length_pos.mpr (List.ne_nil_of_mem hyt)
      have hle := hperm.length_eq
      simp only [List.length_cons] at hle
      omega
    rw [hmemdel]
    refine ⟨(k, groupEntries fromiso k (jsonFilesOf files)),
      buildMap_mem_of_ne hne, ?_⟩
    rw [mem_groupDeletions]
    exact ⟨hlen, y, by rw [hsort]; simpa using hyt, rfl⟩
  obtain ⟨l₁, l₂, hsplit, hl₁, hl₂⟩ := firstMaxAux_split xs x
  refine ⟨firstMaxAux x xs, l₁, l₂, ?_, by rw [hGxs]; exact hsplit, hl₁, hl₂⟩
  apply filter_eq_single _ _ _ he0G
  · have hcf : ¬ ((scan_and_deduplicate fromiso u (some files)).deleted.contains
        (firstMaxAux x xs).1.name = true) := by
      rw [contains_iff_mem_names]
      exact hA
    simp only [Bool.not_eq_true] at hcf
    simp only [hcf, Bool.not_false]
  · intro b hbG hbne
    have hbt : b ∈ t := by
      have hb' := hperm.mem_iff.mpr hbG
      rcases List.mem_cons.mp hb' with rfl | hbt
      · exact absurd rfl hbne
      · exact hbt
    have hc : (scan_and_deduplicate fromiso u (some files)).deleted.contains
        b.1.name = true := contains_iff_mem_names.mpr (hB b hbt)
    simp only [hc, Bool.not_true]
  · exact List.count_eq_one_of_mem (List.Nodup.of_map _ hGn) he0G

end VendaBoost

namespace VendaBoost

open List

/-! ### Further helpers -/

theorem attempted_sub_names (fromiso : String → Option PyDateTime)
    (jfiles : List FileInfo) :
    ∀ n ∈ attemptedDeletions (buildMap fromiso jfiles),
      n ∈ jfiles.map (fun f => f.name) := by
  intro n hn
  rw [mem_attemptedDeletions] at hn
  obtain ⟨g, hg, hgd⟩ := hn
  rcases g with ⟨k, fs⟩
  obtain ⟨hfs, _⟩ := mem_buildMap hg
  rw [mem_groupDeletions] at hgd
  obtain ⟨_, y, hyt, rfl⟩ := hgd
  have hy : y ∈ fs := (sortDesc_perm fs).mem_iff.mp (List.mem_of_mem_tail hyt)
  rw [hfs] at hy
  exact List.mem_map_of_mem _ (groupEntries_sound hy).1

theorem excluded_notin_jsonFiles {files : List FileInfo} {n : String}
    (h : n ∈ excluded_files) :
    n ∉ (jsonFilesOf files).map (fun f => f.name) := by
  intro hmem
  rw [List.mem_map] at hmem
  obtain ⟨g, hg, rfl⟩ := hmem
  have hses := List.of_mem_filter hg
  unfold isSessionJson at hses
  rw [Bool.and_eq_true] at hses
  have h2 := hses.2
  rw [Bool.not_eq_true'] at h2
  rw [← contains_iff_mem_names] at h
  rw [h2] at h
  cases h

theorem jsonFilesOf_filter (files : List FileInfo) (q : FileInfo → Bool) :
    jsonFilesOf (files.filter q) = (jsonFilesOf files).filter q := by
  unfold jsonFilesOf
  rw [List.filter_filter, List.filter_filter]
  congr 1
  funext f
  rw [Bool.and_comm]

theorem attempted_nil {m : List (JValue × List Entry)}
    (h : ∀ g ∈ m, g.2.length ≤ 1) : attemptedDeletions m = [] := by
  unfold attemptedDeletions
  rw [List.flatten_eq_nil_iff]
  intro l hl
  rw [List.mem_map] at hl
  obtain ⟨g, hg, rfl⟩ := hl
  unfold groupDeletions
  rw [if_neg]
  have := h g hg
  omega

theorem truthyPart_pyOr (a b : Option JValue) :
    truthyPart (pyOr a b) = match a with
      | some v => if v.truthy then some v else truthyPart b
      | none => truthyPart b := by
  rcases a with _ | v
  · simp [pyOr]
  · by_cases hv : v.truthy <;> simp [pyOr, truthyPart, hv]

theorem truthyPart_pyOr_spec (data : List (String × JValue)) (key : String)
    (rest : Option JValue) (keys : List String)
    (h : truthyPart rest = specFirstTruthyField data keys) :
    truthyPart (pyOr (jget data key) rest) =
      specFirstTruthyField data (key :: keys) := by
  rw [truthyPart_pyOr]
  cases hk : jget data key with
  | none => simp [specFirstTruthyField, hk, h]
  | some v => by_cases hv : v.truthy <;> simp [specFirstTruthyField, hk, hv, h]

theorem truthyPart_single (data : List (String × JValue)) (key : String) :
    truthyPart (jget data key) = specFirstTruthyField data [key] := by
  cases hk : jget data key with
  | none => simp [specFirstTruthyField, truthyPart, hk]
  | some v =>
    by_cases hv : v.truthy <;>
      simp [specFirstTruthyField, truthyPart, hk, hv]

end VendaBoost

namespace VendaBoost

open List

/-! ### Claim theorems -/

/-- C7: if the target directory does not exist, `scan_and_deduplicate` logs
an error and returns without raising, and deletes, reads and writes no
session file: the scan result records the missing directory and empty
opened/error/deletion lists, leaving the filesystem unchanged. -/
theorem C7_missing_directory_noop (fromiso : String → Option PyDateTime)
    (u : String → Bool) :
    scan_and_deduplicate fromiso u none =
      { dirMissing := true, opened := [], jsonErrors := [],
        deleted := [], deleteErrors := [], fatalError := false } := rfl

/-- C9: one invocation of the icon generator's `main` produces exactly the
three PNG files `icon16.png`, `icon48.png`, `icon128.png`, of pixel
dimensions 16x16, 48x48 and 128x128 respectively, and no other file —
whatever the font environment does. -/
theorem C9_exactly_three_icons (fontOk : Nat → Bool) :
    (generate_icons_main fontOk).map (fun r => (r.1, r.2.width, r.2.height)) =
      [("icon16.png", 16, 16), ("icon48.png", 48, 48),
       ("icon128.png", 128, 128)] := by
  cases h48 : fontOk 48 <;> cases h128 : fontOk 128 <;>
    simp [generate_icons_main, icon_table, create_icon, h48, h128]

/-- C10: `create_icon` draws the text label only when the size is at least
48 pixels, and a font-loading or text-drawing failure is swallowed: the icon
file is still written under the requested name with the same `size` by
`size` dimensions, just without the label. -/
theorem C10_label_gate_and_font_fallback (fontOk : Bool) (size : Nat)
    (filename : String) :
    (create_icon fontOk size filename).1 = filename ∧
    (create_icon fontOk size filename).2.width = size ∧
    (create_icon fontOk size filename).2.height = size ∧
    ((create_icon fontOk size filename).2.hasLabel = true → 48 ≤ size) ∧
    (fontOk = false → (create_icon fontOk size filename).2.hasLabel = false) := by
  unfold create_icon
  by_cases hs : size ≥ 48 <;> cases fontOk <;> simp [hs]

/-- Witness for C10 at a failing font environment and size 48: the file is
still produced at 48x48 under its fixed name, without the label. -/
theorem C10_label_gate_and_font_fallback_witness :
    (create_icon false 48 "icon48.png").2.hasLabel = false ∧
    (create_icon false 48 "icon48.png").1 = "icon48.png" ∧
    (create_icon false 48 "icon48.png").2.width = 48 ∧
    (create_icon false 48 "icon48.png").2.height = 48 :=
  ⟨(C10_label_gate_and_font_fallback false 48 "icon48.png").2.2.2.2 rfl,
   (C10_label_gate_and_font_fallback false 48 "icon48.png").1,
   (C10_label_gate_and_font_fallback false 48 "icon48.png").2.1,
   (C10_label_gate_and_font_fallback false 48 "icon48.png").2.2.1⟩

/-- C5 counterexample: a document whose earlier priority field
`activeSessionId` is present (with the falsy value `""`) does not win: the
extracted id is the later field's value `"abc"`, both in the raw `or` chain
of lines 66-71 and in `get_session_info`'s result, refuting
"whenever an earlier field of the list is present, its value is used". -/
theorem C5_present_field_counterexample :
    jget [("activeSessionId", JValue.jstr ""), ("sessionId", JValue.jstr "abc")]
        "activeSessionId" = some (JValue.jstr "") ∧
    specFirstPresentField
        [("activeSessionId", JValue.jstr ""), ("sessionId", JValue.jstr "abc")]
        ["activeSessionId", "sessionId", "id", "accountId"] =
      some (JValue.jstr "") ∧
    sidChain [("activeSessionId", JValue.jstr ""), ("sessionId", JValue.jstr "abc")] =
      some (JValue.jstr "abc") ∧
    (get_session_info (fun _ => none)
        ⟨"x.json",
         Content.obj [("activeSessionId", JValue.jstr ""),
                      ("sessionId", JValue.jstr "abc")], 7⟩).1 =
      some (JValue.jstr "abc") ∧
    JValue.jstr "abc" ≠ JValue.jstr "" := by
  refine ⟨rfl, rfl, rfl, rfl, by decide⟩

/-- C5 (amended): the extraction is first-match-wins over present-and-truthy
fields: the observable value of the id chain of lines 66-71 (and of the
timestamp chain of lines 74-78) equals the first field of the priority list
that is present with a truthy value; present falsy fields fall through to
later fields. -/
theorem C5_first_truthy_field_wins (data : List (String × JValue)) :
    truthyPart (sidChain data) =
      specFirstTruthyField data
        ["activeSessionId", "sessionId", "id", "accountId"] ∧
    truthyPart (tsChain data) =
      specFirstTruthyField data ["updatedAt", "timestamp", "createdAt"] := by
  constructor
  · rw [sidChain]
    apply truthyPart_pyOr_spec
    apply truthyPart_pyOr_spec
    apply truthyPart_pyOr_spec
    exact truthyPart_single data "accountId"
  · rw [tsChain]
    apply truthyPart_pyOr_spec
    apply truthyPart_pyOr_spec
    exact truthyPart_single data "createdAt"

/-- C8 counterexample: the installed interrupt handler (lines 203-205) does
not set the running stop flag — it terminates the process immediately with
`sys.exit(0)`, shown here at signal 2 (SIGINT). -/
theorem C8_handler_counterexample :
    signal_handler 2 () = HandlerAction.sysExit 0 ∧
    signal_handler 2 () ≠ HandlerAction.setRunningFalse :=
  ⟨rfl, by decide⟩

/-- C8 (amended): the handler exits the process immediately via
`sys.exit(0)` instead of setting the stop flag; independently, the loop of
lines 185-192 checks `self.running` before each one-second sleep and once
more before scanning, so on any trace where the flag, once cleared, stays
cleared (only `stop()` writes it, and it only writes `False`), the loop
performs at most `m` further one-second sleeps once the flag reads false at
its `m`-th check and never starts a new scan. -/
theorem C8_exit_handler_and_flag_latency (signum : Int) (frame : Unit)
    (running : Nat → Bool) (n i m : Nat)
    (hmono : ∀ j, running j = false → running (j + 1) = false)
    (hm : m ≤ n) (hstop : running (i + m) = false) :
    signal_handler signum frame = HandlerAction.sysExit 0 ∧
    (waitLoop running n i).1 ≤ m ∧ (waitLoop running n i).2 = false := by
  refine ⟨rfl, ?_⟩
  induction n generalizing i m with
  | zero =>
    have hm0 : m = 0 := Nat.le_zero.mp hm
    subst hm0
    simp only [waitLoop]
    refine ⟨Nat.le_refl 0, ?_⟩
    simpa using hstop
  | succ n ih =>
    by_cases hri : running i = true
    · have hm1 : m ≠ 0 := by
        intro h0
        subst h0
        simp only [Nat.add_zero] at hstop
        rw [hstop] at hri
        cases hri
      obtain ⟨m', rfl⟩ : ∃ m', m = m' + 1 := ⟨m - 1, by omega⟩
      have hstep := ih (i + 1) m' (by omega)
        (by rw [show i + 1 + m' = i + (m' + 1) by omega]; exact hstop)
      simp only [waitLoop, hri, if_true]
      exact ⟨by omega, hstep.2⟩
    · have hri' : running i = false := by simpa using hri
      simp only [waitLoop, hri', Bool.false_eq_true, if_false]
      exact ⟨Nat.zero_le m, hmono i hri'⟩

/-- Witness for C8 on the all-false flag trace: zero sleeps, no scan, and
the handler's action at SIGINT. -/
theorem C8_exit_handler_and_flag_latency_witness :
    signal_handler 2 () = HandlerAction.sysExit 0 ∧
    (waitLoop (fun _ => false) 5 0).1 ≤ 0 ∧
    (waitLoop (fun _ => false) 5 0).2 = false :=
  C8_exit_handler_and_flag_latency 2 () (fun _ => false) 5 0 0
    (fun _ _ => rfl) (Nat.zero_le 5) rfl

end VendaBoost

namespace VendaBoost

open List

/-- C6: for a parsed session file none of whose timestamp fields
`updatedAt`, `timestamp`, `createdAt` is present (and with a truthy id),
`get_session_info` resolves the timestamp to the file's modification time,
and that is the timestamp recorded for the file in its identifier group. -/
theorem C6_mtime_fallback (fromiso : String → Option PyDateTime) (f : FileInfo)
    (data : List (String × JValue)) (v : JValue)
    (hc : f.content = Content.obj data)
    (h1 : jget data "updatedAt" = none) (h2 : jget data "timestamp" = none)
    (h3 : jget data "createdAt" = none)
    (hsid : sidChain data = some v) (hv : v.truthy = true) :
    get_session_info fromiso f = (some v, some ⟨false, f.mtime⟩) ∧
    ∀ files, f ∈ jsonFilesOf files →
      (f, (⟨false, f.mtime⟩ : PyDateTime)) ∈
        groupEntries fromiso v (jsonFilesOf files) := by
  have hts : tsChain data = none := by
    simp [tsChain, pyOr, h1, h2, h3]
  have hgsi : get_session_info fromiso f = (some v, some ⟨false, f.mtime⟩) := by
    simp [get_session_info, hc, hsid, hts, optTruthy, hv]
  refine ⟨hgsi, ?_⟩
  intro files hfj
  rw [mem_groupEntries]
  exact ⟨f, hfj, entryOf_eq_some.mpr ⟨hv, rfl, by rw [hgsi]⟩⟩

/-- Witness for C6: a file whose only field is a session id gets grouped
under its modification time. -/
theorem C6_mtime_fallback_witness :
    get_session_info (fun _ => none)
      ⟨"s.json", Content.obj [("sessionId", JValue.jstr "s")], 11⟩ =
        (some (JValue.jstr "s"), some ⟨false, 11⟩) ∧
    (⟨"s.json", Content.obj [("sessionId", JValue.jstr "s")], 11⟩,
        (⟨false, 11⟩ : PyDateTime)) ∈
      groupEntries (fun _ => none) (JValue.jstr "s")
        (jsonFilesOf
          [⟨"s.json", Content.obj [("sessionId", JValue.jstr "s")], 11⟩]) :=
  ⟨(C6_mtime_fallback (fun _ => none)
      ⟨"s.json", Content.obj [("sessionId", JValue.jstr "s")], 11⟩
      [("sessionId", JValue.jstr "s")] (JValue.jstr "s")
      rfl rfl rfl rfl rfl rfl).1,
   (C6_mtime_fallback (fun _ => none)
      ⟨"s.json", Content.obj [("sessionId", JValue.jstr "s")], 11⟩
      [("sessionId", JValue.jstr "s")] (JValue.jstr "s")
      rfl rfl rfl rfl rfl rfl).2
      [⟨"s.json", Content.obj [("sessionId", JValue.jstr "s")], 11⟩]
      (by decide)⟩

/-- C3: a file whose name is in the exclusion set is never opened, parsed,
or deleted by a scan, regardless of its content: its name appears in none of
the scan's opened/parse-error/deletion lists and the file is still in the
directory afterwards. -/
theorem C3_excluded_files_untouched (fromiso : String → Option PyDateTime)
    (u : String → Bool) (files : List FileInfo) (f : FileInfo)
    (hexcl : f.name ∈ excluded_files) (hf : f ∈ files) :
    f.name ∉ (scan_and_deduplicate fromiso u (some files)).opened ∧
    f.name ∉ (scan_and_deduplicate fromiso u (some files)).jsonErrors ∧
    f.name ∉ (scan_and_deduplicate fromiso u (some files)).deleted ∧
    f.name ∉ (scan_and_deduplicate fromiso u (some files)).deleteErrors ∧
    f ∈ afterScan files (scan_and_deduplicate fromiso u (some files)) := by
  have hnotJF : f.name ∉ (jsonFilesOf files).map (fun g => g.name) :=
    excluded_notin_jsonFiles hexcl
  by_cases hJF : jsonFilesOf files = []
  · have hscan := scan_some_empty fromiso u files hJF
    simp only [hscan]
    refine ⟨by simp, by simp, by simp, by simp, ?_⟩
    unfold afterScan
    simp [hscan, hf]
  · have hscan := scan_some fromiso u files hJF
    simp only [hscan]
    have hdelsub : ∀ n,
        n ∈ (runDeletions u (buildMap fromiso (jsonFilesOf files))).deleted ∨
        n ∈ (runDeletions u (buildMap fromiso (jsonFilesOf files))).deleteErrors →
        n ∈ (jsonFilesOf files).map (fun g => g.name) := by
      intro n hn
      have hex : ∃ g ∈ buildMap fromiso (jsonFilesOf files),
          n ∈ groupDeletions g := by
        rcases hn with hn | hn
        · exact runDeletions_deleted_sub u _ n hn
        · exact runDeletions_errors_sub u _ n hn
      exact attempted_sub_names fromiso (jsonFilesOf files) n
        (mem_attemptedDeletions.mpr hex)
    refine ⟨hnotJF, ?_, ?_, ?_, ?_⟩
    · intro hmem
      rw [List.mem_map] at hmem
      obtain ⟨g, hg, hname⟩ := hmem
      exact hnotJF (by
        rw [← hname]
        exact List.mem_map_of_mem _ (List.mem_of_mem_filter hg))
    · intro hmem
      exact hnotJF (hdelsub _ (Or.inl hmem))
    · intro hmem
      exact hnotJF (hdelsub _ (Or.inr hmem))
    · unfold afterScan
      rw [List.mem_filter]
      refine ⟨hf, ?_⟩
      simp only [hscan]
      rw [Bool.not_eq_true', Bool.eq_false_iff, ne_eq, contains_iff_mem_names]
      intro hmem
      exact hnotJF (hdelsub _ (Or.inl hmem))

/-- C4: a scanned file whose content is not valid JSON is logged as a parse
error and left untouched: `get_session_info` returns `(None, None)` for it,
no identifier group contains an entry with its name, and it is neither
deleted nor the subject of a deletion error, remaining in the directory. -/
theorem C4_invalid_json_left_untouched (fromiso : String → Option PyDateTime)
    (u : String → Bool) (files : List FileInfo) (f : FileInfo)
    (hnames : (files.map (fun g => g.name)).Nodup)
    (hf : f ∈ files) (hjson : isSessionJson f = true)
    (hinv : f.content = Content.invalid) :
    get_session_info fromiso f = (none, none) ∧
    f.name ∈ (scan_and_deduplicate fromiso u (some files)).jsonErrors ∧
    (∀ g ∈ buildMap fromiso (jsonFilesOf files), ∀ e ∈ g.2,
      e.1.name ≠ f.name) ∧
    f.name ∉ (scan_and_deduplicate fromiso u (some files)).deleted ∧
    f.name ∉ (scan_and_deduplicate fromiso u (some files)).deleteErrors ∧
    f ∈ afterScan files (scan_and_deduplicate fromiso u (some files)) := by
  have hgsi : get_session_info fromiso f = (none, none) := by
    simp [get_session_info, hinv]
  have hfJF : f ∈ jsonFilesOf files := List.mem_filter.mpr ⟨hf, hjson⟩
  have hJFne : jsonFilesOf files ≠ [] := List.ne_nil_of_mem hfJF
  have hscan := scan_some fromiso u files hJFne
  have hgroups : ∀ g ∈ buildMap fromiso (jsonFilesOf files), ∀ e ∈ g.2,
      e.1.name ≠ f.name := by
    intro g hg e he heq
    rcases g with ⟨k, fs⟩
    obtain ⟨hfs, _⟩ := mem_buildMap hg
    rw [hfs] at he
    have hsound := groupEntries_sound he
    have hef : e.1 = f :=
      name_inj (jsonFiles_names_nodup hnames) hsound.1 hfJF heq
    have := hsound.2.2
    rw [hef, hgsi] at this
    injection this with h1 h2
    cases h1
  have hnotatt : ∀ n,
      n ∈ attemptedDeletions (buildMap fromiso (jsonFilesOf files)) →
      n ≠ f.name := by
    intro n hn
    rw [mem_attemptedDeletions] at hn
    obtain ⟨g, hg, hgd⟩ := hn
    rw [mem_groupDeletions] at hgd
    obtain ⟨_, y, hyt, rfl⟩ := hgd
    have hy : y ∈ g.2 :=
      (sortDesc_perm g.2).mem_iff.mp (List.mem_of_mem_tail hyt)
    exact hgroups g hg y hy
  refine ⟨hgsi, ?_, hgroups, ?_, ?_, ?_⟩
  · simp only [hscan]
    exact List.mem_map_of_mem _
      (List.mem_filter.mpr ⟨hfJF, by simp [hinv]⟩)
  · intro hmem
    simp only [hscan] at hmem
    exact hnotatt _ (mem_attemptedDeletions.mpr
      (runDeletions_deleted_sub u _ _ hmem)) rfl
  · intro hmem
    simp only [hscan] at hmem
    exact hnotatt _ (mem_attemptedDeletions.mpr
      (runDeletions_errors_sub u _ _ hmem)) rfl
  · unfold afterScan
    rw [List.mem_filter]
    refine ⟨hf, ?_⟩
    rw [Bool.not_eq_true', Bool.eq_false_iff, ne_eq, contains_iff_mem_names]
    intro hmem
    simp only [hscan] at hmem
    exact hnotatt _ (mem_attemptedDeletions.mpr
      (runDeletions_deleted_sub u _ _ hmem)) rfl

end VendaBoost

namespace VendaBoost

open List

/-- C1 counterexample: a group pairing a file whose embedded `updatedAt`
parses to an aware datetime (line 92 gives `fromisoformat` an offset-bearing
string) with a same-identifier file resolved to the naive
modification-time fallback of line 95 makes line 138's sort raise TypeError.
The outer handler of lines 162-163 logs it and the scan returns: the
directory exists and every deletion succeeds (none is attempted), yet both
files of the group are still in the directory, refuting "at most one file
per session identifier remains". -/
theorem C1_mixed_timestamps_counterexample :
    (scan_and_deduplicate
        (fun s => if s = "2024-01-01T00:00:00+00:00" then
          some ⟨true, 100⟩ else none)
        (fun _ => true)
        (some [⟨"c.json", Content.obj
                  [("sessionId", JValue.jstr "s"),
                   ("updatedAt", JValue.jstr "2024-01-01T00:00:00Z")], 9⟩,
               ⟨"d.json", Content.obj
                  [("sessionId", JValue.jstr "s")], 1⟩])).dirMissing
      = false ∧
    (scan_and_deduplicate
        (fun s => if s = "2024-01-01T00:00:00+00:00" then
          some ⟨true, 100⟩ else none)
        (fun _ => true)
        (some [⟨"c.json", Content.obj
                  [("sessionId", JValue.jstr "s"),
                   ("updatedAt", JValue.jstr "2024-01-01T00:00:00Z")], 9⟩,
               ⟨"d.json", Content.obj
                  [("sessionId", JValue.jstr "s")], 1⟩])).deleteErrors
      = [] ∧
    ∃ g ∈ buildMap
        (fun s => if s = "2024-01-01T00:00:00+00:00" then
          some ⟨true, 100⟩ else none)
        (jsonFilesOf
          [⟨"c.json", Content.obj
              [("sessionId", JValue.jstr "s"),
               ("updatedAt", JValue.jstr "2024-01-01T00:00:00Z")], 9⟩,
           ⟨"d.json", Content.obj [("sessionId", JValue.jstr "s")], 1⟩]),
      ((afterScan
          [⟨"c.json", Content.obj
              [("sessionId", JValue.jstr "s"),
               ("updatedAt", JValue.jstr "2024-01-01T00:00:00Z")], 9⟩,
           ⟨"d.json", Content.obj [("sessionId", JValue.jstr "s")], 1⟩]
          (scan_and_deduplicate
            (fun s => if s = "2024-01-01T00:00:00+00:00" then
              some ⟨true, 100⟩ else none)
            (fun _ => true)
            (some [⟨"c.json", Content.obj
                      [("sessionId", JValue.jstr "s"),
                       ("updatedAt", JValue.jstr "2024-01-01T00:00:00Z")], 9⟩,
                   ⟨"d.json", Content.obj
                      [("sessionId", JValue.jstr "s")], 1⟩]))).filter
        (fun h => g.2.any (fun y => y.1.name == h.name))).length = 2 := by
  refine ⟨by decide, by decide, ?_⟩
  refine ⟨(JValue.jstr "s",
    [(⟨"c.json", Content.obj
        [("sessionId", JValue.jstr "s"),
         ("updatedAt", JValue.jstr "2024-01-01T00:00:00Z")], 9⟩,
      (⟨true, 100⟩ : PyDateTime)),
     (⟨"d.json", Content.obj [("sessionId", JValue.jstr "s")], 1⟩,
      (⟨false, 1⟩ : PyDateTime))]), by decide, by decide⟩

/-- C1 (amended): for every identifier group computed by a scan, when the
scan completes successfully — the directory exists, every attempted deletion
succeeds, and no aware/naive timestamp comparison aborts the deduplication
loop (no fatal error is logged) — and the directory's file names are
distinct, exactly one member of the group remains in the directory
afterwards: the member with the latest resolved timestamp, ties broken by
discovery order (the stable descending sort keeps the earliest-discovered
among equal timestamps), everything discovered before it being strictly
older and everything after it no newer. -/
theorem C1_group_survivor_is_latest (fromiso : String → Option PyDateTime)
    (u : String → Bool) (files : List FileInfo) (k : JValue) (fs : List Entry)
    (hnames : (files.map (fun g => g.name)).Nodup)
    (hmem : (k, fs) ∈ buildMap fromiso (jsonFilesOf files))
    (hok : (scan_and_deduplicate fromiso u (some files)).deleteErrors = [])
    (hfatal : (scan_and_deduplicate fromiso u (some files)).fatalError = false) :
    ∃ e l₁ l₂, fs = l₁ ++ e :: l₂ ∧
      (∀ y ∈ l₁, y.2.t < e.2.t) ∧ (∀ y ∈ l₂, y.2.t ≤ e.2.t) ∧
      (afterScan files (scan_and_deduplicate fromiso u (some files))).filter
        (fun g => fs.any (fun y => y.1.name == g.name)) = [e.1] := by
  obtain ⟨hfs, hne⟩ := mem_buildMap hmem
  subst hfs
  obtain ⟨e, l₁, l₂, hfilter, hsplit, hl₁, hl₂⟩ :=
    survivors_core fromiso u files hnames hok hfatal k hne
  refine ⟨e, l₁, l₂, hsplit, hl₁, hl₂, ?_⟩
  have heG : e ∈ groupEntries fromiso k (jsonFilesOf files) := by
    rw [hsplit]
    exact List.mem_append_right _ (List.mem_cons_self _ _)
  have he1JF : e.1 ∈ jsonFilesOf files := (groupEntries_sound heG).1
  have he1files : e.1 ∈ files := List.mem_of_mem_filter he1JF
  have hpe : (!((scan_and_deduplicate fromiso u
      (some files)).deleted.contains e.1.name)) = true := by
    have hmemf : e ∈ (groupEntries fromiso k (jsonFilesOf files)).filter
        (fun y => !((scan_and_deduplicate fromiso u
          (some files)).deleted.contains y.1.name)) := by
      rw [hfilter]
      exact List.mem_cons_self _ _
    exact (List.mem_filter.mp hmemf).2
  have hcfalse : (scan_and_deduplicate fromiso u
      (some files)).deleted.contains e.1.name = false := by
    rwa [Bool.not_eq_true'] at hpe
  have honly : ∀ y ∈ groupEntries fromiso k (jsonFilesOf files),
      y.1.name ∉ (scan_and_deduplicate fromiso u (some files)).deleted →
      y = e := by
    intro y hy hnd
    have hyp : (!((scan_and_deduplicate fromiso u
        (some files)).deleted.contains y.1.name)) = true := by
      rw [Bool.not_eq_true', Bool.eq_false_iff, ne_eq, contains_iff_mem_names]
      exact hnd
    have hymem : y ∈ (groupEntries fromiso k (jsonFilesOf files)).filter
        (fun y => !((scan_and_deduplicate fromiso u
          (some files)).deleted.contains y.1.name)) :=
      List.mem_filter.mpr ⟨hy, hyp⟩
    rw [hfilter] at hymem
    simpa using hymem
  unfold afterScan
  rw [List.filter_filter]
  apply filter_eq_single files _ e.1 he1files
  · rw [Bool.and_eq_true]
    constructor
    · rw [List.any_eq_true]
      exact ⟨e, heG, by simp⟩
    · rw [Bool.not_eq_true']
      exact hcfalse
  · intro b hb hbne
    by_contra hpb
    rw [Bool.not_eq_false] at hpb
    rw [Bool.and_eq_true, List.any_eq_true] at hpb
    obtain ⟨⟨y, hyG, hyname⟩, hbnc⟩ := hpb
    rw [beq_iff_eq] at hyname
    have hy1files : y.1 ∈ files :=
      List.mem_of_mem_filter (groupEntries_sound hyG).1
    have hy1b : y.1 = b := name_inj hnames hy1files hb hyname
    have hbnd : b.name ∉
        (scan_and_deduplicate fromiso u (some files)).deleted := by
      rw [Bool.not_eq_true'] at hbnc
      intro hmemd
      rw [← contains_iff_mem_names, hbnc] at hmemd
      cases hmemd
    have hye : y = e := honly y hyG (by rw [hy1b]; exact hbnd)
    exact hbne (by rw [← hy1b, hye])
  · exact List.count_eq_one_of_mem (List.Nodup.of_map _ hnames) he1files

/-- Witness for C1 on a two-file group with distinct timestamps. -/
theorem C1_group_survivor_is_latest_witness :
    ∃ e l₁ l₂,
      ([(⟨"a.json", Content.obj [("sessionId", JValue.jstr "s")], 2⟩,
          (⟨false, 2⟩ : PyDateTime)),
        (⟨"b.json", Content.obj [("sessionId", JValue.jstr "s")], 1⟩,
          (⟨false, 1⟩ : PyDateTime))] :
          List Entry) = l₁ ++ e :: l₂ ∧
      (∀ y ∈ l₁, y.2.t < e.2.t) ∧ (∀ y ∈ l₂, y.2.t ≤ e.2.t) ∧
      (afterScan
        [⟨"a.json", Content.obj [("sessionId", JValue.jstr "s")], 2⟩,
         ⟨"b.json", Content.obj [("sessionId", JValue.jstr "s")], 1⟩]
        (scan_and_deduplicate (fun _ => none) (fun _ => true)
          (some [⟨"a.json", Content.obj [("sessionId", JValue.jstr "s")], 2⟩,
                 ⟨"b.json", Content.obj [("sessionId", JValue.jstr "s")], 1⟩]))).filter
        (fun g =>
          ([(⟨"a.json", Content.obj [("sessionId", JValue.jstr "s")], 2⟩,
              (⟨false, 2⟩ : PyDateTime)),
            (⟨"b.json", Content.obj [("sessionId", JValue.jstr "s")], 1⟩,
              (⟨false, 1⟩ : PyDateTime))] :
              List Entry).any (fun y => y.1.name == g.name)) =
        [e.1] :=
  C1_group_survivor_is_latest (fun _ => none) (fun _ => true)
    [⟨"a.json", Content.obj [("sessionId", JValue.jstr "s")], 2⟩,
     ⟨"b.json", Content.obj [("sessionId", JValue.jstr "s")], 1⟩]
    (JValue.jstr "s")
    [(⟨"a.json", Content.obj [("sessionId", JValue.jstr "s")], 2⟩,
       (⟨false, 2⟩ : PyDateTime)),
     (⟨"b.json", Content.obj [("sessionId", JValue.jstr "s")], 1⟩,
       (⟨false, 1⟩ : PyDateTime))]
    (by decide) (by decide) (by decide) (by decide)

end VendaBoost

namespace VendaBoost

open List

/-- C2 counterexample, two runs-in-succession scenarios with no files added
or changed between the runs. First, a deletion whose unlink raises in the
first run (as lines 149-150 anticipate) and again in the second: the second
run reports a deletion error and sees an identifier group with two members.
Second, a group mixing an aware embedded timestamp with the naive
modification-time fallback: line 138's sort raises TypeError, the first run
deletes nothing and reports no deletion error — so even adding the
"all first-run deletions succeed" hypothesis alone would not help — yet the
second run still sees a two-member group. -/
theorem C2_failed_unlink_counterexample :
    ((scan_and_deduplicate (fun _ => none) (fun _ => false)
      (some (afterScan
        [⟨"a.json", Content.obj [("sessionId", JValue.jstr "s")], 2⟩,
         ⟨"b.json", Content.obj [("sessionId", JValue.jstr "s")], 1⟩]
        (scan_and_deduplicate (fun _ => none) (fun _ => false)
          (some [⟨"a.json", Content.obj [("sessionId", JValue.jstr "s")], 2⟩,
                 ⟨"b.json", Content.obj [("sessionId", JValue.jstr "s")], 1⟩]))))).deleteErrors
      ≠ [] ∧
    ∃ g ∈ buildMap (fun _ => none)
        (jsonFilesOf (afterScan
          [⟨"a.json", Content.obj [("sessionId", JValue.jstr "s")], 2⟩,
           ⟨"b.json", Content.obj [("sessionId", JValue.jstr "s")], 1⟩]
          (scan_and_deduplicate (fun _ => none) (fun _ => false)
            (some [⟨"a.json", Content.obj [("sessionId", JValue.jstr "s")], 2⟩,
                   ⟨"b.json", Content.obj [("sessionId", JValue.jstr "s")], 1⟩])))),
      g.2.length > 1) ∧
    ((scan_and_deduplicate
        (fun s => if s = "2025-05-05T00:00:00+00:00" then
          some ⟨true, 50⟩ else none)
        (fun _ => true)
        (some [⟨"c.json", Content.obj
                  [("sessionId", JValue.jstr "s"),
                   ("updatedAt", JValue.jstr "2025-05-05T00:00:00Z")], 9⟩,
               ⟨"d.json", Content.obj
                  [("sessionId", JValue.jstr "s")], 1⟩])).deleteErrors = [] ∧
     (scan_and_deduplicate
        (fun s => if s = "2025-05-05T00:00:00+00:00" then
          some ⟨true, 50⟩ else none)
        (fun _ => true)
        (some [⟨"c.json", Content.obj
                  [("sessionId", JValue.jstr "s"),
                   ("updatedAt", JValue.jstr "2025-05-05T00:00:00Z")], 9⟩,
               ⟨"d.json", Content.obj
                  [("sessionId", JValue.jstr "s")], 1⟩])).deleted = [] ∧
     ∃ g ∈ buildMap
        (fun s => if s = "2025-05-05T00:00:00+00:00" then
          some ⟨true, 50⟩ else none)
        (jsonFilesOf (afterScan
          [⟨"c.json", Content.obj
              [("sessionId", JValue.jstr "s"),
               ("updatedAt", JValue.jstr "2025-05-05T00:00:00Z")], 9⟩,
           ⟨"d.json", Content.obj [("sessionId", JValue.jstr "s")], 1⟩]
          (scan_and_deduplicate
            (fun s => if s = "2025-05-05T00:00:00+00:00" then
              some ⟨true, 50⟩ else none)
            (fun _ => true)
            (some [⟨"c.json", Content.obj
                      [("sessionId", JValue.jstr "s"),
                       ("updatedAt", JValue.jstr "2025-05-05T00:00:00Z")], 9⟩,
                   ⟨"d.json", Content.obj
                      [("sessionId", JValue.jstr "s")], 1⟩])))),
       g.2.length > 1) := by
  refine ⟨⟨by decide, ?_⟩, by decide, by decide, ?_⟩
  · refine ⟨(JValue.jstr "s",
      [(⟨"a.json", Content.obj [("sessionId", JValue.jstr "s")], 2⟩,
         (⟨false, 2⟩ : PyDateTime)),
       (⟨"b.json", Content.obj [("sessionId", JValue.jstr "s")], 1⟩,
         (⟨false, 1⟩ : PyDateTime))]),
      by decide, by decide⟩
  · refine ⟨(JValue.jstr "s",
      [(⟨"c.json", Content.obj
          [("sessionId", JValue.jstr "s"),
           ("updatedAt", JValue.jstr "2025-05-05T00:00:00Z")], 9⟩,
        (⟨true, 50⟩ : PyDateTime)),
       (⟨"d.json", Content.obj [("sessionId", JValue.jstr "s")], 1⟩,
        (⟨false, 1⟩ : PyDateTime))]), by decide, by decide⟩

/-- C2 (amended): provided the first run completes successfully — all of
its attempted deletions succeed and no aware/naive timestamp comparison
aborts its deduplication loop — and the directory's names are distinct,
running `scan_and_deduplicate` again on the resulting directory with no
files added or changed is idempotent: the second run deletes nothing,
reports no deletion errors, aborts on nothing, and every identifier group
it sees has at most one member. -/
theorem C2_second_scan_idempotent (fromiso : String → Option PyDateTime)
    (u : String → Bool) (files : List FileInfo)
    (hnames : (files.map (fun g => g.name)).Nodup)
    (hok : (scan_and_deduplicate fromiso u (some files)).deleteErrors = [])
    (hfatal : (scan_and_deduplicate fromiso u (some files)).fatalError = false) :
    (scan_and_deduplicate fromiso u
      (some (afterScan files
        (scan_and_deduplicate fromiso u (some files))))).deleted = [] ∧
    (scan_and_deduplicate fromiso u
      (some (afterScan files
        (scan_and_deduplicate fromiso u (some files))))).deleteErrors = [] ∧
    (scan_and_deduplicate fromiso u
      (some (afterScan files
        (scan_and_deduplicate fromiso u (some files))))).fatalError = false ∧
    ∀ g ∈ buildMap fromiso (jsonFilesOf (afterScan files
        (scan_and_deduplicate fromiso u (some files)))),
      g.2.length ≤ 1 := by
  have hJF2 : jsonFilesOf (afterScan files
      (scan_and_deduplicate fromiso u (some files))) =
      (jsonFilesOf files).filter
        (fun g => !((scan_and_deduplicate fromiso u
          (some files)).deleted.contains g.name)) := by
    unfold afterScan
    exact jsonFilesOf_filter files _
  have hgroups : ∀ g ∈ buildMap fromiso (jsonFilesOf (afterScan files
      (scan_and_deduplicate fromiso u (some files)))),
      g.2.length ≤ 1 := by
    intro g hg
    rcases g with ⟨k, fs⟩
    obtain ⟨hfs, hne2⟩ := mem_buildMap hg
    rw [hJF2, groupEntries_filter] at hfs
    by_cases hG : groupEntries fromiso k (jsonFilesOf files) = []
    · rw [hG] at hfs
      simp only [List.filter_nil] at hfs
      exact absurd hfs hne2
    · obtain ⟨e, l₁, l₂, hfilter, _, _, _⟩ :=
        survivors_core fromiso u files hnames hok hfatal k hG
      rw [hfilter] at hfs
      simp [hfs]
  have hall2 : ∀ g ∈ buildMap fromiso (jsonFilesOf (afterScan files
      (scan_and_deduplicate fromiso u (some files)))),
      g.2.length > 1 → sortable g.2 = true := by
    intro g hg hlen
    have := hgroups g hg
    omega
  have hrun2 := runDeletions_ok u
    (buildMap fromiso (jsonFilesOf (afterScan files
      (scan_and_deduplicate fromiso u (some files))))) hall2
  have hatt : attemptedDeletions (buildMap fromiso (jsonFilesOf
      (afterScan files (scan_and_deduplicate fromiso u (some files))))) = [] :=
    attempted_nil hgroups
  refine ⟨?_, ?_, ?_, hgroups⟩
  · by_cases hJF2e : jsonFilesOf (afterScan files
        (scan_and_deduplicate fromiso u (some files))) = []
    · rw [scan_some_empty fromiso u _ hJF2e]
    · rw [scan_some fromiso u _ hJF2e]
      simp [hrun2, hatt]
  · by_cases hJF2e : jsonFilesOf (afterScan files
        (scan_and_deduplicate fromiso u (some files))) = []
    · rw [scan_some_empty fromiso u _ hJF2e]
    · rw [scan_some fromiso u _ hJF2e]
      simp [hrun2, hatt]
  · by_cases hJF2e : jsonFilesOf (afterScan files
        (scan_and_deduplicate fromiso u (some files))) = []
    · rw [scan_some_empty fromiso u _ hJF2e]
    · rw [scan_some fromiso u _ hJF2e]
      simp [hrun2]

/-- Witness for C2 on a two-file duplicate group whose first-run deletion
succeeds. -/
theorem C2_second_scan_idempotent_witness :
    (scan_and_deduplicate (fun _ => none) (fun _ => true)
      (some (afterScan
        [⟨"a.json", Content.obj [("sessionId", JValue.jstr "s")], 2⟩,
         ⟨"b.json", Content.obj [("sessionId", JValue.jstr "s")], 1⟩]
        (scan_and_deduplicate (fun _ => none) (fun _ => true)
          (some [⟨"a.json", Content.obj [("sessionId", JValue.jstr "s")], 2⟩,
                 ⟨"b.json", Content.obj [("sessionId", JValue.jstr "s")], 1⟩]))))).deleted
      = [] ∧
    (scan_and_deduplicate (fun _ => none) (fun _ => true)
      (some (afterScan
        [⟨"a.json", Content.obj [("sessionId", JValue.jstr "s")], 2⟩,
         ⟨"b.json", Content.obj [("sessionId", JValue.jstr "s")], 1⟩]
        (scan_and_deduplicate (fun _ => none) (fun _ => true)
          (some [⟨"a.json", Content.obj [("sessionId", JValue.jstr "s")], 2⟩,
                 ⟨"b.json", Content.obj [("sessionId", JValue.jstr "s")], 1⟩]))))).deleteErrors
      = [] ∧
    (scan_and_deduplicate (fun _ => none) (fun _ => true)
      (some (afterScan
        [⟨"a.json", Content.obj [("sessionId", JValue.jstr "s")], 2⟩,
         ⟨"b.json", Content.obj [("sessionId", JValue.jstr "s")], 1⟩]
        (scan_and_deduplicate (fun _ => none) (fun _ => true)
          (some [⟨"a.json", Content.obj [("sessionId", JValue.jstr "s")], 2⟩,
                 ⟨"b.json", Content.obj [("sessionId", JValue.jstr "s")], 1⟩]))))).fatalError
      = false ∧
    ∀ g ∈ buildMap (fun _ => none)
        (jsonFilesOf (afterScan
          [⟨"a.json", Content.obj [("sessionId", JValue.jstr "s")], 2⟩,
           ⟨"b.json", Content.obj [("sessionId", JValue.jstr "s")], 1⟩]
          (scan_and_deduplicate (fun _ => none) (fun _ => true)
            (some [⟨"a.json", Content.obj [("sessionId", JValue.jstr "s")], 2⟩,
                   ⟨"b.json", Content.obj [("sessionId", JValue.jstr "s")], 1⟩])))),
      g.2.length ≤ 1 :=
  C2_second_scan_idempotent (fun _ => none) (fun _ => true)
    [⟨"a.json", Content.obj [("sessionId", JValue.jstr "s")], 2⟩,
     ⟨"b.json", Content.obj [("sessionId", JValue.jstr "s")], 1⟩]
    (by decide) (by decide) (by decide)

end VendaBoost

namespace VendaBoost

open List

/-- Witness for C3: an excluded file with invalid content is untouched by a
scan of a directory that also holds a session file. -/
theorem C3_excluded_files_untouched_witness :
    ("current-session.json" : String) ∉
      (scan_and_deduplicate (fun _ => none) (fun _ => true)
        (some [⟨"current-session.json", Content.invalid, 0⟩,
               ⟨"a.json", Content.obj [("sessionId", JValue.jstr "s")], 1⟩])).opened ∧
    ("current-session.json" : String) ∉
      (scan_and_deduplicate (fun _ => none) (fun _ => true)
        (some [⟨"current-session.json", Content.invalid, 0⟩,
               ⟨"a.json", Content.obj [("sessionId", JValue.jstr "s")], 1⟩])).jsonErrors ∧
    ("current-session.json" : String) ∉
      (scan_and_deduplicate (fun _ => none) (fun _ => true)
        (some [⟨"current-session.json", Content.invalid, 0⟩,
               ⟨"a.json", Content.obj [("sessionId", JValue.jstr "s")], 1⟩])).deleted ∧
    ("current-session.json" : String) ∉
      (scan_and_deduplicate (fun _ => none) (fun _ => true)
        (some [⟨"current-session.json", Content.invalid, 0⟩,
               ⟨"a.json", Content.obj [("sessionId", JValue.jstr "s")], 1⟩])).deleteErrors ∧
    (⟨"current-session.json", Content.invalid, 0⟩ : FileInfo) ∈
      afterScan
        [⟨"current-session.json", Content.invalid, 0⟩,
         ⟨"a.json", Content.obj [("sessionId", JValue.jstr "s")], 1⟩]
        (scan_and_deduplicate (fun _ => none) (fun _ => true)
          (some [⟨"current-session.json", Content.invalid, 0⟩,
                 ⟨"a.json", Content.obj [("sessionId", JValue.jstr "s")], 1⟩])) :=
  C3_excluded_files_untouched (fun _ => none) (fun _ => true)
    [⟨"current-session.json", Content.invalid, 0⟩,
     ⟨"a.json", Content.obj [("sessionId", JValue.jstr "s")], 1⟩]
    ⟨"current-session.json", Content.invalid, 0⟩ (by decide) (by decide)

/-- Witness for C4: a scanned file with unparsable JSON is logged, grouped
nowhere and left in place. -/
theorem C4_invalid_json_left_untouched_witness :
    get_session_info (fun _ => none)
      ⟨"bad.json", Content.invalid, 5⟩ = (none, none) ∧
    ("bad.json" : String) ∈
      (scan_and_deduplicate (fun _ => none) (fun _ => true)
        (some [⟨"bad.json", Content.invalid, 5⟩,
               ⟨"a.json", Content.obj [("sessionId", JValue.jstr "s")], 1⟩])).jsonErrors ∧
    (∀ g ∈ buildMap (fun _ => none)
        (jsonFilesOf [⟨"bad.json", Content.invalid, 5⟩,
                      ⟨"a.json", Content.obj [("sessionId", JValue.jstr "s")], 1⟩]),
      ∀ e ∈ g.2, e.1.name ≠ ("bad.json" : String)) ∧
    ("bad.json" : String) ∉
      (scan_and_deduplicate (fun _ => none) (fun _ => true)
        (some [⟨"bad.json", Content.invalid, 5⟩,
               ⟨"a.json", Content.obj [("sessionId", JValue.jstr "s")], 1⟩])).deleted ∧
    ("bad.json" : String) ∉
      (scan_and_deduplicate (fun _ => none) (fun _ => true)
        (some [⟨"bad.json", Content.invalid, 5⟩,
               ⟨"a.json", Content.obj [("sessionId", JValue.jstr "s")], 1⟩])).deleteErrors ∧
    (⟨"bad.json", Content.invalid, 5⟩ : FileInfo) ∈
      afterScan
        [⟨"bad.json", Content.invalid, 5⟩,
         ⟨"a.json", Content.obj [("sessionId", JValue.jstr "s")], 1⟩]
        (scan_and_deduplicate (fun _ => none) (fun _ => true)
          (some [⟨"bad.json", Content.invalid, 5⟩,
                 ⟨"a.json", Content.obj [("sessionId", JValue.jstr "s")], 1⟩])) :=
  C4_invalid_json_left_untouched (fun _ => none) (fun _ => true)
    [⟨"bad.json", Content.invalid, 5⟩,
     ⟨"a.json", Content.obj [("sessionId", JValue.jstr "s")], 1⟩]
    ⟨"bad.json", Content.invalid, 5⟩ (by decide) (by decide) (by decide) rfl

end VendaBoost
